import Mathlib

/-!
Verification of the coredns-ocp-dnsnameresolver engine against its
natural-language specification.

The Go sources are shallowly embedded:

* instants are integers counting nanoseconds (Go `time.Time`), durations are
  integers counting nanoseconds (Go `time.Duration`);
* Go `int32` values are embedded as `Int`; where the source performs an
  `int32` conversion or where wrap-around is reachable, the two's-complement
  reduction `i32` is applied explicitly;
* Go maps are embedded as association lists whose update/lookup helpers
  mirror map semantics (distinct keys are an invariant of every map the
  engine builds);
* `strings.EqualFold` is embedded as equality of lowercased strings, which
  coincides with it on the ASCII DNS names the engine handles;
* the utility helpers `isWildcard`, `getWildcard`, `isSameNextLookupTime`
  and `getTimeTillNextLookup` live in files of the repository that are not
  part of the excerpt (only their tests and callers are); they are modelled
  from the specification, as marked on each definition.
-/

/-- Nanoseconds per second (Go `time.Second`). -/
def nsPerSecond : Int := 1000000000

/-- Two's-complement reduction of an integer into the `int32` range,
the effect of Go arithmetic on `int32` values. -/
def i32 (x : Int) : Int := (x + 2147483648) % 4294967296 - 2147483648

/-- Go conversion `int32(u)` of a `uint32` value `u` (two's-complement
reinterpretation of the low 32 bits). -/
def toInt32 (n : Nat) : Int :=
  let m : Nat := n % 4294967296
  if m < 2147483648 then (m : Int) else (m : Int) - 4294967296

/-- Character-wise comparison after lowercasing, the effect of
`strings.EqualFold` on the ASCII DNS names the engine handles. -/
def eqFoldChars : List Char → List Char → Bool
  | [], [] => true
  | c :: cs, d :: ds => (c.toLower == d.toLower) && eqFoldChars cs ds
  | _, _ => false

/-- Embedding of `strings.EqualFold` for the ASCII DNS names handled by the
engine: equality after lowercasing. -/
def equalFold (a b : String) : Bool := eqFoldChars a.data b.data

/-- Modelled from the spec: `isWildcard(n)` is true iff `n` begins with the
two characters `*.` (the helper lives in a utility file absent from the
excerpt; its behaviour is fixed by spec section 3 and by `TestIsWildcard`).
Stated on the character list so that it evaluates by kernel reduction. -/
def isWildcard (dnsName : String) : Bool :=
  match dnsName.data with
  | '*' :: '.' :: _ => true
  | _ => false

/-- Modelled from the spec: `getWildcard` strips the first label of a
regular FQDN and prepends `*.`; a wildcard input is returned unchanged
(spec section 3 and section 8, and `TestGetWildcard`). -/
def getWildcard (dnsName : String) : String :=
  if isWildcard dnsName then dnsName
  else "*." ++ ((dnsName.dropWhile (fun c => c ≠ '.')).drop 1)

/-- Modelled from the spec: two next-lookup times compare equal iff they lie
within a 5-second margin, `|(last + ttlExisting) - (now + ttlCurrent)| ≤ 5s`
(spec section 4.6; the helper lives in a utility file absent from the
excerpt, exercised by `TestIsSameNextLookupTime`). -/
def isSameNextLookupTime (now lastLookupTime ttlExisting ttlCurrent : Int) : Bool :=
  decide ((lastLookupTime + ttlExisting * nsPerSecond
      - (now + ttlCurrent * nsPerSecond)).natAbs ≤ 5000000000)

/-- Default maximum TTL of the operator-side resolver, 30 minutes
(`resolver.go`). -/
def defaultMaxTTL : Int := 1800 * nsPerSecond

/-- Default minimum TTL of the operator-side resolver, 5 seconds
(`resolver.go`). -/
def defaultMinTTL : Int := 5 * nsPerSecond

/-- Modelled from the spec: the scheduler re-arm helper
`getTimeTillNextLookup(exists, remaining)` (spec sections 4.3 and 8 and
`TestGetTimeTillNextLookup`; the helper itself lives in a file of the
repository absent from the excerpt, which only contains its test and the
inline clamp of `Resolver.Start`).  No DNS name pending yields the default
maximum TTL; a remaining duration above the default maximum TTL is clamped
to it; a non-positive remaining duration yields twice the default minimum
TTL; otherwise the remaining duration is used as is. -/
def getTimeTillNextLookup (dnsExists : Bool) (remainingDuration : Int) : Int :=
  if !dnsExists then defaultMaxTTL
  else if remainingDuration > defaultMaxTTL then defaultMaxTTL
  else if remainingDuration ≤ 0 then 2 * defaultMinTTL
  else remainingDuration

/-- C3: the scheduler's re-arm helper returns the default maximum TTL when no
DNS name is pending, clamps a remaining duration above the default maximum
TTL down to it, returns twice the default minimum TTL on a non-positive
remaining duration, and returns the remaining duration itself when it lies
in `(0, defaultMaxTTL]`. -/
theorem getTimeTillNextLookup_clamps (r : Int) :
    getTimeTillNextLookup false r = defaultMaxTTL
      ∧ (r > defaultMaxTTL → getTimeTillNextLookup true r = defaultMaxTTL)
      ∧ (r ≤ 0 → getTimeTillNextLookup true r = 2 * defaultMinTTL)
      ∧ (0 < r → r ≤ defaultMaxTTL → getTimeTillNextLookup true r = r) := by
  refine ⟨rfl, ?_, ?_, ?_⟩
  · intro h
    simp [getTimeTillNextLookup, h]
  · intro h
    have hng : ¬ r > defaultMaxTTL := by
      have : (0 : Int) < defaultMaxTTL := by decide
      omega
    simp [getTimeTillNextLookup, hng, h]
  · intro h0 hle
    have hng : ¬ r > defaultMaxTTL := by omega
    have hng0 : ¬ r ≤ 0 := by omega
    simp [getTimeTillNextLookup, hng, hng0]

/-- Witness for C3 at concrete inputs: no name pending, remaining above the
maximum, remaining zero, and remaining equal to the default minimum TTL. -/
theorem getTimeTillNextLookup_clamps_witness :
    getTimeTillNextLookup false 0 = defaultMaxTTL
      ∧ getTimeTillNextLookup true (defaultMaxTTL + 1) = defaultMaxTTL
      ∧ getTimeTillNextLookup true 0 = 2 * defaultMinTTL
      ∧ getTimeTillNextLookup true defaultMinTTL = defaultMinTTL := by
  refine ⟨(getTimeTillNextLookup_clamps 0).1, ?_, ?_, ?_⟩
  · exact (getTimeTillNextLookup_clamps (defaultMaxTTL + 1)).2.1 (by decide)
  · exact (getTimeTillNextLookup_clamps 0).2.2.1 (by decide)
  · exact (getTimeTillNextLookup_clamps defaultMinTTL).2.2.2 (by decide) (by decide)

/-- One resolved address of a resolved name
(`DNSNameResolverResolvedAddress`): IP, TTL in seconds (`int32`), and the
instant of the last lookup. -/
structure ResolvedAddress where
  ip : String
  ttlSeconds : Int
  lastLookupTime : Int
  deriving Repr, DecidableEq

/-- The next lookup time of a resolved address,
`lastLookupTime + ttlSeconds` (Go
`LastLookupTime.Time.Add(time.Duration(TTLSeconds) * time.Second)`). -/
def nextLookupTime (a : ResolvedAddress) : Int :=
  a.lastLookupTime + a.ttlSeconds * nsPerSecond

/-- One condition of a resolved name (`metav1.Condition`); the status is the
string `"True"`, `"False"` or `"Unknown"` as in `metav1.ConditionStatus`. -/
structure Condition where
  ctype : String
  status : String
  lastTransitionTime : Int
  reason : String
  message : String
  deriving Repr, DecidableEq

/-- One resolved name in the status of a DNSNameResolver object
(`DNSNameResolverResolvedName`). -/
structure ResolvedName where
  dnsName : String
  resolvedAddresses : List ResolvedAddress
  resolutionFailures : Int
  conditions : List Condition
  deriving Repr, DecidableEq

instance : Inhabited ResolvedName := ⟨⟨"", [], 0, []⟩⟩

/-- Association-list embedding of a Go map with string keys: lookup of the
first binding of a key. -/
def mapFind {β : Type} (m : List (String × β)) (k : String) : Option β :=
  (m.find? (fun p => p.1 == k)).map (fun p => p.2)

/-- Go map write `m[k] = v`. -/
def mapSet {β : Type} (m : List (String × β)) (k : String) (v : β) :
    List (String × β) :=
  if m.any (fun p => p.1 == k) then
    m.map (fun p => if p.1 == k then (k, v) else p)
  else m ++ [(k, v)]

/-- Go map deletion `delete(m, k)`. -/
def mapDel {β : Type} (m : List (String × β)) (k : String) : List (String × β) :=
  m.filter (fun p => !(p.1 == k))

/-- Go map read `m[k]` on a `map[string]string`: the zero value `""` stands
for a missing key. -/
def mapReadSS (m : List (String × String)) (k : String) : String :=
  (mapFind m k).getD ""

/-- Unfolding of `mapFind` on a cons cell. -/
theorem mapFind_cons {β : Type} (a : String × β) (t : List (String × β)) (k : String) :
    mapFind (a :: t) k = if a.1 == k then some a.2 else mapFind t k := by
  by_cases h : a.1 == k
  · simp [mapFind, List.find?_cons_of_pos, h]
  · simp [mapFind, List.find?_cons_of_neg, h]

/-- Writing a key stores exactly that binding. -/
theorem mapFind_mapSet {β : Type} (m : List (String × β)) (k : String) (v : β) :
    mapFind (mapSet m k v) k = some v := by
  by_cases h : m.any (fun p => p.1 == k)
  · simp only [mapSet, if_pos h]
    induction m with
    | nil => simp at h
    | cons a t ih =>
      simp only [List.any_cons, Bool.or_eq_true] at h
      by_cases ha : a.1 == k
      · rw [List.map_cons, if_pos ha, mapFind_cons]
        simp
      · have ht : t.any (fun p => p.1 == k) := by
          rcases h with h | h
          · exact absurd h ha
          · exact h
        rw [List.map_cons, if_neg ha, mapFind_cons, if_neg ha]
        exact ih ht
  · simp only [mapSet, if_neg h]
    have hm : m.find? (fun p => p.1 == k) = none := by
      rw [List.find?_eq_none]
      intro p hp
      exact fun hk => h (List.any_of_mem hp hk)
    simp [mapFind, List.find?_append, hm]

/-- Deleting a key removes every binding of it. -/
theorem mapFind_mapDel {β : Type} (m : List (String × β)) (k : String) :
    mapFind (mapDel m k) k = none := by
  have hfind : List.find? (fun p => p.1 == k) (List.filter (fun p => !(p.1 == k)) m) = none := by
    rw [List.find?_eq_none]
    intro p hp
    have h2 := List.of_mem_filter hp
    simp only [Bool.not_eq_true'] at h2
    simp [h2]
  simp [mapFind, mapDel, hfind]

/-- The name index of one family (regular or wildcard): a Go
`map[string]namespaceDNSInfo`, i.e. DNS name to namespace to object name
(`regularDNSInfo` and `wildcardDNSInfo` in `dnsnameresolver.go`). -/
abbrev DNSInfoMap : Type := List (String × List (String × String))

/-- The object name stored for `(dnsName, namespace)` in a name index, if
any. -/
def indexLookup (idx : DNSInfoMap) (dnsName ns : String) : Option String :=
  (mapFind idx dnsName).bind (fun sub => mapFind sub ns)

/-- The add-event handler of the informer in `initInformer`
(`dnsnameresolver.go`), restricted to one family's index (the wildcard and
regular branches are textually identical): if a sub-map for the DNS name
exists and maps the namespace to a different object name, nothing is done;
otherwise the binding `namespace -> objName` is written and the sub-map is
stored back. -/
def indexAdd (idx : DNSInfoMap) (dnsName ns objName : String) : DNSInfoMap :=
  match mapFind idx dnsName with
  | some dnsInfoMap =>
    match mapFind dnsInfoMap ns with
    | some existing =>
      if existing != objName then idx
      else mapSet idx dnsName (mapSet dnsInfoMap ns objName)
    | none => mapSet idx dnsName (mapSet dnsInfoMap ns objName)
  | none => mapSet idx dnsName (mapSet [] ns objName)

/-- The delete-event handler of the informer in `initInformer`
(`dnsnameresolver.go`), restricted to one family's index: if a sub-map for
the DNS name exists and its Go map read for the namespace (zero value `""`
when absent) equals the object name, the namespace binding is deleted; the
sub-map is stored back when it remains non-empty and the DNS name is erased
from the index otherwise. -/
def indexDelete (idx : DNSInfoMap) (dnsName ns objName : String) : DNSInfoMap :=
  match mapFind idx dnsName with
  | some dnsInfoMap =>
    if mapReadSS dnsInfoMap ns == objName then
      let dnsInfoMap2 := mapDel dnsInfoMap ns
      if dnsInfoMap2.length > 0 then mapSet idx dnsName dnsInfoMap2
      else mapDel idx dnsName
    else idx
  | none => idx

/-- C8: the name index maintained from watch events is first-write-wins on
add — an add for `(n, ns)` already mapped to a different object name leaves
the index unchanged, and otherwise stores `(n, ns) -> o`; a delete erases
the mapping only when the stored object name equals `o`, and removes the
per-DNS-name sub-map exactly when it becomes empty. -/
theorem nameIndex_add_delete_contract (idx : DNSInfoMap) (n ns o : String) :
    (∀ o2, indexLookup idx n ns = some o2 → o2 ≠ o → indexAdd idx n ns o = idx)
    ∧ ((indexLookup idx n ns = none ∨ indexLookup idx n ns = some o) →
        indexLookup (indexAdd idx n ns o) n ns = some o)
    ∧ (∀ sub, mapFind idx n = some sub → mapReadSS sub ns = o →
        indexLookup (indexDelete idx n ns o) n ns = none
        ∧ (mapDel sub ns = [] → mapFind (indexDelete idx n ns o) n = none)
        ∧ (mapDel sub ns ≠ [] →
            mapFind (indexDelete idx n ns o) n = some (mapDel sub ns)))
    ∧ (∀ sub, mapFind idx n = some sub → mapReadSS sub ns ≠ o →
        indexDelete idx n ns o = idx)
    ∧ (mapFind idx n = none → indexDelete idx n ns o = idx) := by
  refine ⟨?_, ?_, ?_, ?_, ?_⟩
  · intro o2 hlook hne
    simp only [indexLookup, Option.bind_eq_some] at hlook
    obtain ⟨sub, hsub, ho2⟩ := hlook
    simp only [indexAdd, hsub, ho2]
    have : (o2 != o) = true := by
      simp [bne_iff_ne, hne]
    simp [this]
  · intro hlook
    have store : ∀ sub, mapFind idx n = some sub →
        indexLookup (mapSet idx n (mapSet sub ns o)) n ns = some o := by
      intro sub _
      simp [indexLookup, mapFind_mapSet]
    rcases hlook with hnone | hsome
    · simp only [indexLookup] at hnone
      cases hfind : mapFind idx n with
      | none =>
        simp only [indexAdd, hfind]
        simp [indexLookup, mapFind_mapSet]
      | some sub =>
        rw [hfind] at hnone
        simp only [Option.some_bind] at hnone
        simp only [indexAdd, hfind, hnone]
        exact store sub hfind
    · simp only [indexLookup, Option.bind_eq_some] at hsome
      obtain ⟨sub, hsub, ho⟩ := hsome
      simp only [indexAdd, hsub, ho]
      have : (o != o) = false := by simp
      simp only [this, Bool.false_eq_true, if_false]
      exact store sub hsub
  · intro sub hsub hread
    have heq : (mapReadSS sub ns == o) = true := by
      simp [hread]
    constructor
    · simp only [indexDelete, hsub, heq, if_true]
      by_cases hlen : (mapDel sub ns).length > 0
      · simp only [if_pos hlen]
        simp [indexLookup, mapFind_mapSet, mapFind_mapDel]
      · simp only [if_neg hlen]
        simp [indexLookup, mapFind_mapDel]
    constructor
    · intro hempty
      have hlen : ¬ (mapDel sub ns).length > 0 := by
        simp [hempty]
      simp only [indexDelete, hsub, heq, if_true, if_neg hlen]
      exact mapFind_mapDel idx n
    · intro hne
      have hlen : (mapDel sub ns).length > 0 := by
        cases hd : mapDel sub ns with
        | nil => exact absurd hd hne
        | cons a t => simp [hd]
      simp only [indexDelete, hsub, heq, if_true, if_pos hlen]
      exact mapFind_mapSet idx n (mapDel sub ns)
  · intro sub hsub hread
    have heq : (mapReadSS sub ns == o) = false := by
      simp [hread]
    simp [indexDelete, hsub, heq]
  · intro hnone
    simp [indexDelete, hnone]

/-- Witness for C8 on a concrete index holding `(w.a., ns1) -> obj1`: a
conflicting add is a no-op, a fresh add stores the mapping, and a matching
delete erases it. -/
theorem nameIndex_add_delete_contract_witness :
    indexAdd [("w.a.", [("ns1", "obj1")])] "w.a." "ns1" "obj2"
        = [("w.a.", [("ns1", "obj1")])]
      ∧ indexLookup (indexAdd [("w.a.", [("ns1", "obj1")])] "w.a." "ns2" "obj2")
          "w.a." "ns2" = some "obj2"
      ∧ indexLookup (indexDelete [("w.a.", [("ns1", "obj1")])] "w.a." "ns1" "obj1")
          "w.a." "ns1" = none := by
  refine ⟨?_, ?_, ?_⟩
  · exact (nameIndex_add_delete_contract [("w.a.", [("ns1", "obj1")])] "w.a." "ns1" "obj2").1
      "obj1" (by decide) (by decide)
  · exact (nameIndex_add_delete_contract [("w.a.", [("ns1", "obj1")])] "w.a." "ns2" "obj2").2.1
      (Or.inl (by decide))
  · exact ((nameIndex_add_delete_contract [("w.a.", [("ns1", "obj1")])] "w.a." "ns1" "obj1").2.2.1
      [("ns1", "obj1")] (by decide) (by decide)).1

/-- Replacing the bindings of one key leaves the lookup of any other key
unchanged. -/
theorem mapFind_mapReplace_ne {β : Type} (m : List (String × β)) (k k2 : String)
    (v : β) (h : k2 ≠ k) :
    mapFind (m.map (fun p => if p.1 == k then (k, v) else p)) k2 = mapFind m k2 := by
  induction m with
  | nil => rfl
  | cons a t ih =>
    rw [List.map_cons, mapFind_cons, mapFind_cons]
    by_cases ha : a.1 == k
    · rw [if_pos ha]
      have ha2 : (a.1 == k2) = false := by
        have hak : a.1 = k := eq_of_beq ha
        simp [hak, Ne.symm h]
      have h1 : ((k, v).1 == k2) = false := by
        simp [Ne.symm h]
      rw [h1, ha2]
      simp only [Bool.false_eq_true, if_false]
      exact ih
    · rw [if_neg ha]
      by_cases ha2 : a.1 == k2
      · rw [if_pos ha2, if_pos ha2]
      · rw [if_neg ha2, if_neg ha2]
        exact ih

/-- Writing one key leaves the lookup of any other key unchanged. -/
theorem mapFind_mapSet_ne {β : Type} (m : List (String × β)) (k k2 : String) (v : β)
    (h : k2 ≠ k) : mapFind (mapSet m k v) k2 = mapFind m k2 := by
  by_cases hany : m.any (fun p => p.1 == k)
  · simp only [mapSet, if_pos hany]
    exact mapFind_mapReplace_ne m k k2 v h
  · simp only [mapSet, if_neg hany]
    have hone : List.find? (fun p => p.1 == k2) [(k, v)] = none := by
      have hkk : (k == k2) = false := by simp [Ne.symm h]
      simp [hkk]
    simp only [mapFind, List.find?_append, hone, Option.or_none]

/-- DNS record type A (`dns.TypeA`). -/
def typeA : Nat := 1

/-- DNS record type AAAA (`dns.TypeAAAA`). -/
def typeAAAA : Nat := 28

/-- The success rcode (`dns.RcodeSuccess`). -/
def rcodeSuccess : Int := 0

/-- One answer record as seen by the handler: its record type, the textual
IP (`rec.A.String()` / `rec.AAAA.String()`), and the wire TTL (`Hdr.Ttl`, a
`uint32`). -/
structure DNSRecord where
  rtype : Nat
  ip : String
  wireTtl : Nat
  deriving Repr, DecidableEq

/-- The TTL stored for one answer record in `ServeDNS`
(`build-coredns.sh` embedded handler, lines 118-131): the wire TTL after the
Go conversion `int32(rec.Hdr.Ttl)`, with 0 replaced by the configured
minimum TTL. -/
def answerTTL (minimumTTL : Int) (wireTtl : Nat) : Int :=
  let ttl := toInt32 wireTtl
  if ttl == 0 then minimumTTL else ttl

/-- The answer-parsing loop of `ServeDNS` (`build-coredns.sh` embedded
handler, lines 112-136): for an A (resp. AAAA) query every A (resp. AAAA)
record writes its IP and TTL into the `ipTTLs` map, records of other Go
types fail the type assertion and are skipped; for any other query type the
loop returns early (`none`). -/
def buildIPTTLs (qtype : Nat) (minimumTTL : Int) :
    List DNSRecord → List (String × Int) → Option (List (String × Int))
  | [], acc => some acc
  | r :: rest, acc =>
    if qtype == typeA then
      if r.rtype == typeA then
        buildIPTTLs qtype minimumTTL rest (mapSet acc r.ip (answerTTL minimumTTL r.wireTtl))
      else buildIPTTLs qtype minimumTTL rest acc
    else if qtype == typeAAAA then
      if r.rtype == typeAAAA then
        buildIPTTLs qtype minimumTTL rest (mapSet acc r.ip (answerTTL minimumTTL r.wireTtl))
      else buildIPTTLs qtype minimumTTL rest acc
    else none

/-- The `(rcode, err)` pair and answer section produced by delegating the
request to the next handler in the plugin chain. -/
structure NextResponse where
  rcode : Int
  err : Option String
  answers : List DNSRecord
  deriving Repr, DecidableEq

/-- The status-maintenance work dispatched by `ServeDNS` (run in goroutines
whose errors are only logged). -/
inductive ServeEffect where
  | passthrough
  | skippedNonIPQuery
  | noAddresses
  | failureUpdate (regularInfo wildcardInfo : Option (List (String × String)))
      (qname : String) (rcode : Int)
  | successUpdate (regularInfo wildcardInfo : Option (List (String × String)))
      (qname : String) (ipTTLs : List (String × Int))
  deriving Repr, DecidableEq

/-- What `ServeDNS` returns to the DNS client together with the
status-maintenance work it dispatched. -/
structure ServeResult where
  rcode : Int
  err : Option String
  effect : ServeEffect
  deriving Repr, DecidableEq

/-- `ServeDNS` of the embedded handler (`build-coredns.sh` lines 76-206):
lowercase the query name; look it up in the wildcard index (for a wildcard
query) or in both the regular index and, through `getWildcard`, the
wildcard index (for a regular query); with no hit, return the next
handler's result untouched; otherwise parse the answer (a non-A/AAAA query
with a non-empty answer returns early), dispatch failure updates on a
non-success rcode or error, skip an empty ip-to-ttl map, and dispatch
success updates otherwise.  In every branch the returned pair is the next
handler's `(rcode, err)`; the dispatched updates report their errors only
to the log. -/
def serveDNS (regularDNSInfo wildcardDNSInfo : DNSInfoMap) (minimumTTL : Int)
    (qname : String) (qtype : Nat) (next : NextResponse) : ServeResult :=
  let q := qname.toLower
  let regularInfo : Option (List (String × String)) :=
    if isWildcard q then none else mapFind regularDNSInfo q
  let wildcardInfo : Option (List (String × String)) :=
    if isWildcard q then mapFind wildcardDNSInfo q
    else mapFind wildcardDNSInfo (getWildcard q)
  if regularInfo.isNone && wildcardInfo.isNone then
    { rcode := next.rcode, err := next.err, effect := .passthrough }
  else
    match buildIPTTLs qtype minimumTTL next.answers [] with
    | none => { rcode := next.rcode, err := next.err, effect := .skippedNonIPQuery }
    | some ipTTLs =>
      if next.rcode != rcodeSuccess || next.err.isSome then
        { rcode := next.rcode, err := next.err,
          effect := .failureUpdate regularInfo wildcardInfo q next.rcode }
      else if ipTTLs.length == 0 then
        { rcode := next.rcode, err := next.err, effect := .noAddresses }
      else
        { rcode := next.rcode, err := next.err,
          effect := .successUpdate regularInfo wildcardInfo q ipTTLs }

/-- C6: for every DNS request, `ServeDNS` returns exactly the `(rcode, err)`
pair produced by the next handler; the status-maintenance work it dispatches
(whose lister, live-get, update and retry errors are only logged) never
alters the pair returned to the DNS client. -/
theorem serveDNS_propagates_next (regularDNSInfo wildcardDNSInfo : DNSInfoMap)
    (minimumTTL : Int) (qname : String) (qtype : Nat) (next : NextResponse) :
    (serveDNS regularDNSInfo wildcardDNSInfo minimumTTL qname qtype next).rcode
        = next.rcode
      ∧ (serveDNS regularDNSInfo wildcardDNSInfo minimumTTL qname qtype next).err
        = next.err := by
  simp only [serveDNS]
  repeat' split
  all_goals exact ⟨rfl, rfl⟩

/-- Folding map writes over records whose key is absent from the record list
leaves a lookup unchanged. -/
theorem mapFind_foldl_mapSet_not_mem (v : DNSRecord → Int) (k : String) :
    ∀ (l : List DNSRecord) (acc : List (String × Int)),
      k ∉ l.map (fun x => x.ip) →
      mapFind (l.foldl (fun a x => mapSet a x.ip (v x)) acc) k = mapFind acc k := by
  intro l
  induction l with
  | nil => intro acc _; rfl
  | cons x t ih =>
    intro acc hk
    simp only [List.map_cons, List.mem_cons, not_or] at hk
    rw [List.foldl_cons, ih (mapSet acc x.ip (v x)) hk.2]
    exact mapFind_mapSet_ne acc x.ip k (v x) hk.1

/-- With pairwise-distinct record IPs, folding map writes over the records
stores each record's value at its IP. -/
theorem mapFind_foldl_mapSet (v : DNSRecord → Int) (r : DNSRecord) :
    ∀ (l : List DNSRecord) (acc : List (String × Int)),
      r ∈ l → (l.map (fun x => x.ip)).Nodup →
      mapFind (l.foldl (fun a x => mapSet a x.ip (v x)) acc) r.ip = some (v r) := by
  intro l
  induction l with
  | nil => intro acc hr _; cases hr
  | cons x t ih =>
    intro acc hr hnd
    simp only [List.map_cons, List.nodup_cons] at hnd
    rw [List.foldl_cons]
    rcases List.mem_cons.mp hr with heq | hmem
    · subst heq
      rw [mapFind_foldl_mapSet_not_mem v r.ip t (mapSet acc r.ip (v r)) hnd.1]
      exact mapFind_mapSet acc r.ip (v r)
    · exact ih (mapSet acc x.ip (v x)) hmem hnd.2

/-- For an A or AAAA query whose answer records all carry the query's type,
the parsing loop is the fold of the per-record map writes. -/
theorem buildIPTTLs_eq_foldl (qtype : Nat) (minimumTTL : Int)
    (hq : qtype = typeA ∨ qtype = typeAAAA) :
    ∀ (answers : List DNSRecord) (acc : List (String × Int)),
      (∀ r ∈ answers, r.rtype = qtype) →
      buildIPTTLs qtype minimumTTL answers acc =
        some (answers.foldl
          (fun a x => mapSet a x.ip (answerTTL minimumTTL x.wireTtl)) acc) := by
  intro answers
  induction answers with
  | nil => intro acc _; rfl
  | cons x t ih =>
    intro acc hrec
    have hx : x.rtype = qtype := hrec x (List.mem_cons_self x t)
    have ht : ∀ r ∈ t, r.rtype = qtype := fun r hr => hrec r (List.mem_cons_of_mem x hr)
    rcases hq with h | h
    · have hq1 : (qtype == typeA) = true := by simp [h]
      have hx1 : (x.rtype == typeA) = true := by simp [hx, h]
      simp only [buildIPTTLs, hq1, hx1, if_true, List.foldl_cons]
      exact ih (mapSet acc x.ip (answerTTL minimumTTL x.wireTtl)) ht
    · have hq1 : (qtype == typeA) = false := by simp [h, typeA, typeAAAA]
      have hq2 : (qtype == typeAAAA) = true := by simp [h]
      have hx2 : (x.rtype == typeAAAA) = true := by simp [hx, h]
      simp only [buildIPTTLs, hq1, hq2, hx2, Bool.false_eq_true, if_false, if_true,
        List.foldl_cons]
      exact ih (mapSet acc x.ip (answerTTL minimumTTL x.wireTtl)) ht

/-- The TTL stored for a record: the zero wire TTL is substituted by the
configured minimum TTL, a nonzero wire TTL is kept after the `int32`
reinterpretation. -/
theorem answerTTL_spec (minimumTTL : Int) (w : Nat) (hw : w < 4294967296) :
    answerTTL minimumTTL w = if w = 0 then minimumTTL else toInt32 w := by
  have h32 : w % 4294967296 = w := Nat.mod_eq_of_lt hw
  by_cases h0 : w = 0
  · subst h0
    simp [answerTTL, toInt32]
  · have hz : (toInt32 w == 0) = false := by
      simp only [toInt32, h32]
      by_cases hlt : w < 2147483648
      · simp only [if_pos hlt]
        simp [h0]
      · simp only [if_neg hlt]
        have : ¬ ((w : Int) - 4294967296 = 0) := by omega
        simp [this]
    simp only [answerTTL, hz, Bool.false_eq_true, if_false, if_neg h0]

/-- C7 counterexample: the claim that a record with nonzero TTL keeps its
wire TTL fails at a single A record with wire TTL `2^31`; the Go conversion
`int32(rec.Hdr.Ttl)` stores `-2^31` instead. -/
theorem zeroTTL_substitution_counterexample :
    buildIPTTLs typeA 5 [⟨typeA, "9.9.9.9", 2147483648⟩] []
        = some [("9.9.9.9", -2147483648)]
      ∧ ((-2147483648 : Int) ≠ 2147483648) := by
  constructor
  · rfl
  · decide

/-- C7 (amended): when the Interceptor parses a successful A or AAAA answer,
every record whose wire TTL equals 0 is entered into the ip-to-ttl map with
the configured minimum TTL, while a record with nonzero wire TTL is stored
as its wire TTL reinterpreted as a signed 32-bit integer — equal to the wire
TTL itself whenever the wire TTL is below `2^31`. -/
theorem zeroTTL_substitution (qtype : Nat) (minimumTTL : Int)
    (answers : List DNSRecord)
    (hq : qtype = typeA ∨ qtype = typeAAAA)
    (hrec : ∀ r ∈ answers, r.rtype = qtype)
    (hbound : ∀ r ∈ answers, r.wireTtl < 4294967296)
    (hips : (answers.map (fun r => r.ip)).Nodup) :
    ∃ m, buildIPTTLs qtype minimumTTL answers [] = some m
      ∧ ∀ r ∈ answers,
          mapFind m r.ip = some (if r.wireTtl = 0 then minimumTTL else toInt32 r.wireTtl)
          ∧ (r.wireTtl ≠ 0 → r.wireTtl < 2147483648 → toInt32 r.wireTtl = (r.wireTtl : Int)) := by
  refine ⟨answers.foldl (fun a x => mapSet a x.ip (answerTTL minimumTTL x.wireTtl)) [],
    buildIPTTLs_eq_foldl qtype minimumTTL hq answers [] hrec, ?_⟩
  intro r hr
  constructor
  · rw [mapFind_foldl_mapSet (fun x => answerTTL minimumTTL x.wireTtl) r answers [] hr hips]
    rw [answerTTL_spec minimumTTL r.wireTtl (hbound r hr)]
  · intro _ hlt
    have h32 : r.wireTtl % 4294967296 = r.wireTtl :=
      Nat.mod_eq_of_lt (hbound r hr)
    simp [toInt32, h32, hlt]

/-- Witness for C7 at a concrete A answer with a zero-TTL record and a
30-second record. -/
theorem zeroTTL_substitution_witness :
    ∃ m, buildIPTTLs typeA 7 [⟨typeA, "1.1.1.1", 0⟩, ⟨typeA, "1.1.1.2", 30⟩] [] = some m
      ∧ mapFind m "1.1.1.1" = some 7 ∧ mapFind m "1.1.1.2" = some 30 := by
  obtain ⟨m, hm, hall⟩ := zeroTTL_substitution typeA 7
    [⟨typeA, "1.1.1.1", 0⟩, ⟨typeA, "1.1.1.2", 30⟩]
    (Or.inl rfl) (by decide)
    (by intro r hr; fin_cases hr <;> decide)
    (by decide)
  refine ⟨m, hm, ?_, ?_⟩
  · have h1 := (hall ⟨typeA, "1.1.1.1", 0⟩ (by decide)).1
    simpa using h1
  · have h2 := (hall ⟨typeA, "1.1.1.2", 30⟩ (by decide)).1
    have hcalc : toInt32 30 = 30 := by decide
    simpa [hcalc] using h2

/-- One endpoint of an endpoint slice (`discoveryv1.Endpoint`):
`Conditions.Ready` is a `*bool` and the endpoint's addresses. -/
structure Endpoint where
  ready : Option Bool
  addresses : List String
  deriving Repr, DecidableEq

/-- One endpoint slice (`discoveryv1.EndpointSlice`). -/
structure EndpointSlice where
  endpoints : List Endpoint
  deriving Repr, DecidableEq

/-- The IP-collection loops of `getRandomCoreDNSPodIP` (`resolver.go`
lines 337-346): endpoints whose `Ready` condition is non-nil and false are
skipped, all other endpoints contribute their addresses. -/
def readyIPs (slices : List EndpointSlice) : List String :=
  slices.foldl (fun ips epSlice =>
    epSlice.endpoints.foldl (fun acc ep =>
      if ep.ready == some false then acc else acc ++ ep.addresses) ips) []

/-- The swap-to-tail sampling loop of `getRandomCoreDNSPodIP` (`resolver.go`
lines 363-373): pick the element at a random index, move the last element
into its slot and shrink the slice by one.  The RNG stream is a parameter
`rand`; the chosen index is `rand i` reduced modulo the current length,
which ranges over exactly the indices `r1.Intn(len)` can produce. -/
def swapPickGo (rand : Nat → Nat) : Nat → Nat → List String → List String × List String
  | _, 0, ips => ([], ips)
  | i, Nat.succ k, ips =>
    let len := ips.length
    let index := rand i % len
    let chosen := ips.getD index ""
    let ips2 := (ips.set index (ips.getD (len - 1) "")).dropLast
    let rest := swapPickGo rand (i + 1) k ips2
    (chosen :: rest.1, rest.2)

/-- `getRandomCoreDNSPodIP` (`resolver.go` lines 330-377): collect the ready
addresses of all listed endpoint slices; error when none; return all of
them when at most `maxIPs`; otherwise sample `maxIPs` of them without
replacement by swap-to-tail. -/
def getRandomCoreDNSPodIP (rand : Nat → Nat) (maxIPs : Nat)
    (slices : List EndpointSlice) : Except String (List String) :=
  let ips := readyIPs slices
  if ips.length == 0 then Except.error "no ips found for the coredns pods"
  else if ips.length ≤ maxIPs then Except.ok ips
  else Except.ok (swapPickGo rand 0 maxIPs ips).1

/-- A non-empty list is a permutation of its last element consed onto the
list without that element. -/
theorem perm_last_cons (t : List String) (h : t ≠ []) :
    t.Perm (t.getD (t.length - 1) "" :: t.dropLast) := by
  have hlen : t.length - 1 < t.length := by
    cases t with
    | nil => exact absurd rfl h
    | cons a s => simp
  have hgetD : t.getD (t.length - 1) "" = t.getLast h := by
    rw [List.getD_eq_getElem _ _ hlen, List.getLast_eq_getElem]
  rw [hgetD]
  conv_lhs => rw [← List.dropLast_append_getLast h]
  exact List.perm_append_singleton _ _

/-- One swap-to-tail step removes exactly one occurrence: the original list
is a permutation of the chosen element consed onto the shrunk list. -/
theorem swap_remove_perm :
    ∀ (l : List String) (i : Nat), i < l.length →
      l.Perm (l.getD i "" :: (l.set i (l.getD (l.length - 1) "")).dropLast) := by
  intro l
  induction l with
  | nil => intro i hi; cases hi
  | cons a t ih =>
    intro i hi
    cases i with
    | zero =>
      cases ht : t with
      | nil => subst ht; simp
      | cons b t2 =>
        subst ht
        have hne : (b :: t2) ≠ [] := by simp
        have hlast : (a :: b :: t2).getD ((a :: b :: t2).length - 1) ""
            = (b :: t2).getD ((b :: t2).length - 1) "" := by
          simp [List.getD]
        rw [hlast]
        simp only [List.getD_cons_zero, List.set_cons_zero]
        rw [List.dropLast_cons_of_ne_nil hne]
        exact List.Perm.cons a (perm_last_cons (b :: t2) hne)
    | succ j =>
      have hj : j < t.length := by simpa using hi
      have htne : t ≠ [] := by
        intro hcontra
        rw [hcontra] at hj
        cases hj
      have hlast : (a :: t).getD ((a :: t).length - 1) ""
          = t.getD (t.length - 1) "" := by
        cases t with
        | nil => exact absurd rfl htne
        | cons b t2 => simp [List.getD]
      rw [hlast]
      simp only [List.getD_cons_succ, List.set_cons_succ]
      have hsetne : t.set j (t.getD (t.length - 1) "") ≠ [] := by
        intro hcontra
        have := congrArg List.length hcontra
        simp at this
        rw [this] at hj
        cases hj
      rw [List.dropLast_cons_of_ne_nil hsetne]
      exact (List.Perm.cons a (ih j hj)).trans
        (List.Perm.swap (t.getD j "") a ((t.set j (t.getD (t.length - 1) "")).dropLast))

/-- The sampling loop always returns as many elements as requested. -/
theorem swapPickGo_length (rand : Nat → Nat) :
    ∀ (k i : Nat) (ips : List String), (swapPickGo rand i k ips).1.length = k := by
  intro k
  induction k with
  | zero => intro i ips; rfl
  | succ k ih =>
    intro i ips
    simp only [swapPickGo]
    simp [ih]

/-- The sampling loop picks without replacement: the picked elements
followed by the leftover slice are a permutation of the input. -/
theorem swapPickGo_perm (rand : Nat → Nat) :
    ∀ (k i : Nat) (ips : List String), k ≤ ips.length →
      ((swapPickGo rand i k ips).1 ++ (swapPickGo rand i k ips).2).Perm ips := by
  intro k
  induction k with
  | zero => intro i ips _; simp [swapPickGo]
  | succ k ih =>
    intro i ips hk
    have hlen : 0 < ips.length := Nat.lt_of_lt_of_le (Nat.succ_pos k) hk
    have hidx : rand i % ips.length < ips.length := Nat.mod_lt _ hlen
    have hlen2 : ((ips.set (rand i % ips.length)
        (ips.getD (ips.length - 1) "")).dropLast).length = ips.length - 1 := by
      simp
    have hk2 : k ≤ ((ips.set (rand i % ips.length)
        (ips.getD (ips.length - 1) "")).dropLast).length := by
      rw [hlen2]
      omega
    have hstep := swap_remove_perm ips (rand i % ips.length) hidx
    simp only [swapPickGo, List.cons_append]
    exact (List.Perm.cons _ (ih (i + 1) _ hk2)).trans hstep.symm

/-- C9: the pod-IP sampler errors with "no ips found" exactly when the union
of addresses of ready endpoints over all listed endpoint slices is empty;
it returns all of them when their count is at most `maxIPs`; and otherwise
it returns exactly `maxIPs` addresses picked without replacement
(swap-to-tail), i.e. together with the leftover slice they form a
permutation of the union. -/
theorem getRandomCoreDNSPodIP_contract (rand : Nat → Nat) (maxIPs : Nat)
    (slices : List EndpointSlice) :
    ((getRandomCoreDNSPodIP rand maxIPs slices
        = Except.error "no ips found for the coredns pods") ↔ readyIPs slices = [])
      ∧ (readyIPs slices ≠ [] → (readyIPs slices).length ≤ maxIPs →
          getRandomCoreDNSPodIP rand maxIPs slices = Except.ok (readyIPs slices))
      ∧ ((readyIPs slices).length > maxIPs →
          ∃ picked rest, getRandomCoreDNSPodIP rand maxIPs slices = Except.ok picked
            ∧ picked.length = maxIPs ∧ (picked ++ rest).Perm (readyIPs slices)) := by
  refine ⟨?_, ?_, ?_⟩
  · constructor
    · intro h
      by_cases hz : (readyIPs slices).length == 0
      · simpa using hz
      · exfalso
        by_cases hle : (readyIPs slices).length ≤ maxIPs
        · simp only [getRandomCoreDNSPodIP, hz, Bool.false_eq_true, if_false,
            if_pos hle] at h
          cases h
        · simp only [getRandomCoreDNSPodIP, hz, Bool.false_eq_true, if_false,
            if_neg hle] at h
          cases h
    · intro h
      have hz : ((readyIPs slices).length == 0) = true := by
        simp [h]
      simp [getRandomCoreDNSPodIP, hz]
  · intro hne hle
    have hz : ((readyIPs slices).length == 0) = false := by
      simpa using hne
    simp [getRandomCoreDNSPodIP, hz, hle]
  · intro hgt
    have hz : ((readyIPs slices).length == 0) = false := by
      have : (readyIPs slices).length ≠ 0 := by omega
      simpa using this
    have hle : ¬ (readyIPs slices).length ≤ maxIPs := by omega
    refine ⟨(swapPickGo rand 0 maxIPs (readyIPs slices)).1,
      (swapPickGo rand 0 maxIPs (readyIPs slices)).2, ?_, ?_, ?_⟩
    · simp [getRandomCoreDNSPodIP, hz, hle]
    · exact swapPickGo_length rand maxIPs 0 (readyIPs slices)
    · exact swapPickGo_perm rand maxIPs 0 (readyIPs slices) (Nat.le_of_lt hgt)

/-- Witness for C9 on concrete endpoint slices: a single ready address is
returned whole, and a slice whose only endpoint is not ready yields the
"no ips found" error. -/
theorem getRandomCoreDNSPodIP_contract_witness :
    getRandomCoreDNSPodIP (fun _ => 0) 5 [⟨[⟨some true, ["10.0.0.1"]⟩]⟩]
        = Except.ok ["10.0.0.1"]
      ∧ getRandomCoreDNSPodIP (fun _ => 0) 5 [⟨[⟨some false, ["10.0.0.9"]⟩]⟩]
        = Except.error "no ips found for the coredns pods" := by
  constructor
  · exact (getRandomCoreDNSPodIP_contract (fun _ => 0) 5
      [⟨[⟨some true, ["10.0.0.1"]⟩]⟩]).2.1 (by decide) (by decide)
  · exact ((getRandomCoreDNSPodIP_contract (fun _ => 0) 5
      [⟨[⟨some false, ["10.0.0.9"]⟩]⟩]).1).mpr (by decide)

/-- The per-name record of the operator-side resolver (`dnsResolvedName` in
`resolver.go`); numIPs is a Go `int`. -/
structure DNSResolvedName where
  minNextLookupTime : Int
  regularObjExists : Bool
  wildcardObjExists : Bool
  numIPs : Nat
  deriving Repr, DecidableEq

/-- The maps of the operator-side resolver guarded by `dnsLock`
(`Resolver` in `resolver.go`). -/
structure ResolverState where
  dnsNames : List (String × DNSResolvedName)
  regularObjInfo : List (String × String)
  wildcardObjInfo : List (String × List String)
  deriving Repr, DecidableEq

/-- What one `Resolver.Add` call produced: the updated maps, whether the
`added` channel was signalled, and whether a first-lookup goroutine was
spawned. -/
structure AddResult where
  state : ResolverState
  addedSignal : Bool
  spawnedLookup : Bool
  deriving Repr, DecidableEq

/-- The object-consistency check of `Resolver.Add` (`resolver.go` lines
130-149), evaluated when an entry for the DNS name already exists: an add
for a regular object must match the DNS name recorded in `regularObjInfo`,
an add for a wildcard object must find the DNS name in the object's set in
`wildcardObjInfo`; a failed check makes `Add` return without any change. -/
def resolverAddCheckFails (st : ResolverState) (resolvedName : DNSResolvedName)
    (dnsName : String) (matchesRegular : Bool) (objName : String) : Bool :=
  if resolvedName.regularObjExists && matchesRegular then
    match mapFind st.regularObjInfo objName with
    | none => true
    | some matchingDNSName => !(dnsName == matchingDNSName)
  else if resolvedName.wildcardObjExists && !matchesRegular then
    match mapFind st.wildcardObjInfo objName with
    | none => true
    | some dnsNamesMatchingWildcard => !(dnsNamesMatchingWildcard.contains dnsName)
  else false

/-- The minimum next-lookup-time loop of `Resolver.Add` (`resolver.go` lines
163-172): starting from the entry's current value with the `first` flag
unset, every address whose next lookup time is before the running value (or
the first address unconditionally) replaces it. -/
def minNextLookupAcross (resolvedAddresses : List ResolvedAddress) (init : Int) : Int :=
  (resolvedAddresses.foldl (fun acc a =>
    let isBefore := decide (nextLookupTime a < acc.1)
    if !acc.2 || isBefore then (nextLookupTime a, true) else acc) (init, false)).1

/-- `Resolver.Add` (`resolver.go` lines 116-202): fetch the entry for the
DNS name (Go zero value when absent); reject an inconsistent object; with
no resolved addresses and a brand-new entry, arm it at `now + defaultMaxTTL`
and spawn a first lookup; with addresses, recompute the minimum next lookup
time; set `numIPs`; mark the regular or wildcard object as existing and
record the object in `regularObjInfo`/`wildcardObjInfo`; store the entry
and signal `added`. -/
def resolverAdd (now : Int) (dnsName : String)
    (resolvedAddresses : List ResolvedAddress) (matchesRegular : Bool)
    (objName : String) (st : ResolverState) : AddResult :=
  let found := mapFind st.dnsNames dnsName
  let exists0 := found.isSome
  let rn0 := found.getD ⟨0, false, false, 0⟩
  if exists0 && resolverAddCheckFails st rn0 dnsName matchesRegular objName then
    { state := st, addedSignal := false, spawnedLookup := false }
  else
    let step1 :=
      if resolvedAddresses.length == 0 then
        if !exists0 then ({ rn0 with minNextLookupTime := now + defaultMaxTTL }, true)
        else (rn0, false)
      else
        ({ rn0 with minNextLookupTime :=
            minNextLookupAcross resolvedAddresses rn0.minNextLookupTime }, false)
    let rn2 := { step1.1 with numIPs := resolvedAddresses.length }
    if matchesRegular then
      let rn3 := { rn2 with regularObjExists := true }
      { state := { dnsNames := mapSet st.dnsNames dnsName rn3,
                   regularObjInfo := mapSet st.regularObjInfo objName dnsName,
                   wildcardObjInfo := st.wildcardObjInfo },
        addedSignal := true, spawnedLookup := step1.2 }
    else
      let rn3 := { rn2 with wildcardObjExists := true }
      let dnsNamesMatchingWildcard := (mapFind st.wildcardObjInfo objName).getD []
      let inserted :=
        if dnsNamesMatchingWildcard.contains dnsName then dnsNamesMatchingWildcard
        else dnsNamesMatchingWildcard ++ [dnsName]
      { state := { dnsNames := mapSet st.dnsNames dnsName rn3,
                   regularObjInfo := st.regularObjInfo,
                   wildcardObjInfo := mapSet st.wildcardObjInfo objName inserted },
        addedSignal := true, spawnedLookup := step1.2 }

/-- C10 counterexample: `Resolver.Add` with an empty address list for a
dnsName that already has an entry can fail the object-consistency check
(second regular object for the same name), in which case `numIPs` is not
set to 0 (it stays 3) and no `added` signal is sent, contrary to the
claim's unconditional conclusion. -/
theorem resolverAdd_empty_counterexample :
    (resolverAdd 0 "w.a." [] true "obj2"
        ⟨[("w.a.", ⟨100, true, false, 3⟩)], [("obj1", "w.a.")], []⟩).addedSignal = false
      ∧ mapFind (resolverAdd 0 "w.a." [] true "obj2"
          ⟨[("w.a.", ⟨100, true, false, 3⟩)], [("obj1", "w.a.")], []⟩).state.dnsNames "w.a."
        = some ⟨100, true, false, 3⟩ := by
  constructor
  · rfl
  · rfl

/-- C10 (amended): when `Resolver.Add` is called with an empty
resolvedAddresses list for a dnsName that already has an entry in the
`dnsNames` map and the call passes the object-consistency check, the
entry's `minNextLookupTime` is left unchanged (not reset to
`now + defaultMaxTTL`), no first-lookup goroutine is spawned, `numIPs` is
set to 0, the `regularObjExists`/`wildcardObjExists` flag of the matching
family is set, the corresponding object-info map is updated (the other one
is untouched), other `dnsNames` entries are untouched, and the `added`
signal is sent. -/
theorem resolverAdd_empty_frame (now : Int) (dnsName objName : String)
    (matchesRegular : Bool) (st : ResolverState) (rn : DNSResolvedName)
    (hfound : mapFind st.dnsNames dnsName = some rn)
    (hcheck : resolverAddCheckFails st rn dnsName matchesRegular objName = false) :
    (resolverAdd now dnsName [] matchesRegular objName st).addedSignal = true
      ∧ (resolverAdd now dnsName [] matchesRegular objName st).spawnedLookup = false
      ∧ mapFind (resolverAdd now dnsName [] matchesRegular objName st).state.dnsNames
          dnsName = some ⟨rn.minNextLookupTime,
            rn.regularObjExists || matchesRegular,
            rn.wildcardObjExists || !matchesRegular, 0⟩
      ∧ (∀ k, k ≠ dnsName →
          mapFind (resolverAdd now dnsName [] matchesRegular objName st).state.dnsNames k
            = mapFind st.dnsNames k)
      ∧ (matchesRegular = true →
          (resolverAdd now dnsName [] matchesRegular objName st).state.regularObjInfo
              = mapSet st.regularObjInfo objName dnsName
            ∧ (resolverAdd now dnsName [] matchesRegular objName st).state.wildcardObjInfo
              = st.wildcardObjInfo)
      ∧ (matchesRegular = false →
          (resolverAdd now dnsName [] matchesRegular objName st).state.wildcardObjInfo
              = mapSet st.wildcardObjInfo objName
                  (if ((mapFind st.wildcardObjInfo objName).getD []).contains dnsName
                   then (mapFind st.wildcardObjInfo objName).getD []
                   else (mapFind st.wildcardObjInfo objName).getD [] ++ [dnsName])
            ∧ (resolverAdd now dnsName [] matchesRegular objName st).state.regularObjInfo
              = st.regularObjInfo) := by
  cases hm : matchesRegular with
  | true =>
    subst hm
    have hred : resolverAdd now dnsName [] true objName st =
        { state := { dnsNames := mapSet st.dnsNames dnsName
                       ⟨rn.minNextLookupTime, true, rn.wildcardObjExists, 0⟩,
                     regularObjInfo := mapSet st.regularObjInfo objName dnsName,
                     wildcardObjInfo := st.wildcardObjInfo },
          addedSignal := true, spawnedLookup := false } := by
      simp only [resolverAdd]
      rw [hfound]
      simp [hcheck]
    refine ⟨by rw [hred], by rw [hred], ?_, ?_, ?_, ?_⟩
    · rw [hred]
      show mapFind (mapSet st.dnsNames dnsName
        ⟨rn.minNextLookupTime, true, rn.wildcardObjExists, 0⟩) dnsName = _
      rw [mapFind_mapSet]
      simp
    · intro k hk
      rw [hred]
      exact mapFind_mapSet_ne st.dnsNames dnsName k _ hk
    · intro _
      exact ⟨by rw [hred], by rw [hred]⟩
    · intro hcontra
      exact Bool.noConfusion hcontra
  | false =>
    subst hm
    have hred : resolverAdd now dnsName [] false objName st =
        { state := { dnsNames := mapSet st.dnsNames dnsName
                       ⟨rn.minNextLookupTime, rn.regularObjExists, true, 0⟩,
                     regularObjInfo := st.regularObjInfo,
                     wildcardObjInfo := mapSet st.wildcardObjInfo objName
                       (if ((mapFind st.wildcardObjInfo objName).getD []).contains dnsName
                        then (mapFind st.wildcardObjInfo objName).getD []
                        else (mapFind st.wildcardObjInfo objName).getD [] ++ [dnsName]) },
          addedSignal := true, spawnedLookup := false } := by
      simp only [resolverAdd]
      rw [hfound]
      simp [hcheck]
    refine ⟨by rw [hred], by rw [hred], ?_, ?_, ?_, ?_⟩
    · rw [hred]
      show mapFind (mapSet st.dnsNames dnsName
        ⟨rn.minNextLookupTime, rn.regularObjExists, true, 0⟩) dnsName = _
      rw [mapFind_mapSet]
      simp
    · intro k hk
      rw [hred]
      exact mapFind_mapSet_ne st.dnsNames dnsName k _ hk
    · intro hcontra
      exact Bool.noConfusion hcontra
    · intro _
      exact ⟨by rw [hred], by rw [hred]⟩

/-- Witness for C10: a consistent empty-address `Add` for an existing entry
keeps `minNextLookupTime = 100`, zeroes `numIPs` and signals `added`. -/
theorem resolverAdd_empty_frame_witness :
    (resolverAdd 0 "w.a." [] true "obj1"
        ⟨[("w.a.", ⟨100, true, false, 3⟩)], [("obj1", "w.a.")], []⟩).addedSignal = true
      ∧ mapFind (resolverAdd 0 "w.a." [] true "obj1"
          ⟨[("w.a.", ⟨100, true, false, 3⟩)], [("obj1", "w.a.")], []⟩).state.dnsNames "w.a."
        = some ⟨100, true, false, 0⟩ := by
  have h := resolverAdd_empty_frame 0 "w.a." "obj1" true
    ⟨[("w.a.", ⟨100, true, false, 3⟩)], [("obj1", "w.a.")], []⟩
    ⟨100, true, false, 3⟩ (by decide) (by decide)
  exact ⟨h.1, h.2.2.1⟩

/-- The mnemonic table `dns.RcodeToString` of the host DNS library for the
rcodes the handler maps; a missing key yields the Go zero value `""`. -/
def rcodeToString (rcode : Int) : String :=
  if rcode = 0 then "NOERROR"
  else if rcode = 1 then "FORMERR"
  else if rcode = 2 then "SERVFAIL"
  else if rcode = 3 then "NXDOMAIN"
  else if rcode = 4 then "NOTIMP"
  else if rcode = 5 then "REFUSED"
  else if rcode = 6 then "YXDOMAIN"
  else if rcode = 7 then "YXRRSET"
  else if rcode = 8 then "NXRRSET"
  else if rcode = 9 then "NOTAUTH"
  else if rcode = 10 then "NOTZONE"
  else if rcode = 16 then "BADSIG"
  else if rcode = 17 then "BADKEY"
  else if rcode = 18 then "BADTIME"
  else if rcode = 19 then "BADMODE"
  else if rcode = 20 then "BADNAME"
  else if rcode = 21 then "BADALG"
  else if rcode = 22 then "BADTRUNC"
  else if rcode = 23 then "BADCOOKIE"
  else ""

/-- The `rcodeMessage` map of the handler; a missing key yields the Go zero
value `""`. -/
def rcodeMessage (rcode : Int) : String :=
  if rcode = 0 then "No Error"
  else if rcode = 1 then "Format Error"
  else if rcode = 2 then "Server Failure"
  else if rcode = 3 then "Non-Existent Domain"
  else if rcode = 4 then "Not Implemented"
  else if rcode = 5 then "Query Refused"
  else if rcode = 6 then "Name Exists when it should not"
  else if rcode = 7 then "RR Set Exists when it should not"
  else if rcode = 8 then "RR Set that should exist does not"
  else if rcode = 9 then "Server Not Authoritative for zone"
  else if rcode = 10 then "Name not contained in zone"
  else if rcode = 16 then "TSIG Signature Failure"
  else if rcode = 17 then "Key not recognized"
  else if rcode = 18 then "Signature out of time window"
  else if rcode = 19 then "Bad TKEY Mode"
  else if rcode = 20 then "Duplicate key name"
  else if rcode = 21 then "Algorithm not supported"
  else if rcode = 22 then "Bad Truncation"
  else if rcode = 23 then "Bad/missing Server Cookie"
  else ""

/-- A freshly built Degraded condition with the given status string and the
reason/message of the rcode. -/
def degradedCondition (statusVal : String) (now rcode : Int) : Condition :=
  ⟨"Degraded", statusVal, now, rcodeToString rcode, rcodeMessage rcode⟩

/-- The conditions update of the failure path
(`checkAndUpdateResolvedName`, `build-coredns.sh` lines 766-782): create the
Degraded=True condition when none exists; rewrite the first condition when
its status is not True or its reason differs from the rcode's mnemonic. -/
def failureConditionsUpdate (now rcode : Int) : List Condition → List Condition
  | [] => [degradedCondition "True" now rcode]
  | c :: rest =>
    if c.status != "True" || c.reason != rcodeToString rcode then
      (⟨c.ctype, "True", now, rcodeToString rcode, rcodeMessage rcode⟩ : Condition) :: rest
    else c :: rest

/-- `checkAndUpdateResolvedName` (`build-coredns.sh` lines 717-787) acting
on the matched entry: the entry is removed exactly when its
resolutionFailures reaches the failure threshold and no address's next
lookup time is after now; otherwise every expired or nearly-expired address
is re-armed at the minimum TTL, resolutionFailures is incremented and the
Degraded condition set; the result carries the updated entry, the
removeResolvedName flag and the statusUpdated flag. -/
def checkAndUpdateResolvedName (now failureThreshold minimumTTL rcode : Int)
    (e : ResolvedName) : ResolvedName × Bool × Bool :=
  let remove :=
    decide (e.resolutionFailures ≥ failureThreshold) &&
      e.resolvedAddresses.all (fun a => !decide (nextLookupTime a > now))
  if remove then (e, true, false)
  else
    let addrs := e.resolvedAddresses.map (fun a =>
      if !decide (nextLookupTime a > now)
          || isSameNextLookupTime now a.lastLookupTime a.ttlSeconds 0 then
        { a with ttlSeconds := minimumTTL, lastLookupTime := now }
      else a)
    ({ dnsName := e.dnsName, resolvedAddresses := addrs,
       resolutionFailures := i32 (e.resolutionFailures + 1),
       conditions := failureConditionsUpdate now rcode e.conditions }, false, true)

/-- The walk of `updateResolvedNamesFailure` (`build-coredns.sh` lines
663-684): find the first resolved name equal (fold) to the queried name,
apply `checkAndUpdateResolvedName` to it, and break; the processed prefix
is carried in `done`. -/
def failureWalk (dnsName : String) (now failureThreshold minimumTTL rcode : Int) :
    List ResolvedName → List ResolvedName →
      List ResolvedName × Option (Nat × Bool × Bool)
  | done, [] => (done, none)
  | done, e :: rest =>
    if equalFold e.dnsName dnsName then
      let r := checkAndUpdateResolvedName now failureThreshold minimumTTL rcode e
      (done ++ r.1 :: rest, some (done.length, r.2.1, r.2.2))
    else failureWalk dnsName now failureThreshold minimumTTL rcode (done ++ [e]) rest

/-- The status composition of `updateResolvedNamesFailure`
(`build-coredns.sh` lines 599-713): walk the resolved names; with no match
no update is needed; a removable match is spliced out of the list; a kept
match carries the per-entry update.  The boolean is `statusUpdated`, i.e.
whether an updateStatus RPC is issued. -/
def updateResolvedNamesFailureStatus (dnsName : String)
    (now failureThreshold minimumTTL rcode : Int)
    (rns : List ResolvedName) : List ResolvedName × Bool :=
  let w := failureWalk dnsName now failureThreshold minimumTTL rcode [] rns
  match w.2 with
  | none => (w.1, false)
  | some (existingIndex, removeResolvedName, statusUpdated) =>
    if removeResolvedName then
      (w.1.take existingIndex ++ w.1.drop (existingIndex + 1), true)
    else (w.1, statusUpdated)

/-- The walk skips entries that do not match the queried name. -/
theorem failureWalk_skip (dnsName : String) (now failureThreshold minimumTTL rcode : Int) :
    ∀ (before : List ResolvedName), (∀ b ∈ before, equalFold b.dnsName dnsName = false) →
      ∀ (done rest : List ResolvedName),
      failureWalk dnsName now failureThreshold minimumTTL rcode done (before ++ rest)
        = failureWalk dnsName now failureThreshold minimumTTL rcode (done ++ before) rest := by
  intro before
  induction before with
  | nil => intro _ done rest; simp
  | cons b t ih =>
    intro hb done rest
    have hbno : equalFold b.dnsName dnsName = false := hb b (List.mem_cons_self b t)
    have ht : ∀ x ∈ t, equalFold x.dnsName dnsName = false :=
      fun x hx => hb x (List.mem_cons_of_mem b hx)
    rw [List.cons_append]
    show (if equalFold b.dnsName dnsName then _ else _) = _
    rw [hbno]
    simp only [Bool.false_eq_true, if_false]
    rw [ih ht (done ++ [b]) rest]
    simp

/-- `i32` is the identity on values inside the `int32` range. -/
theorem i32_eq_self (x : Int) (hlo : -2147483648 ≤ x) (hhi : x < 2147483648) :
    i32 x = x := by
  unfold i32
  omega

/-- C2: in the Interceptor's failure update, the resolved name entry whose
dnsName equals the queried name is removed from status.resolvedNames if and
only if its resolutionFailures is at least failureThreshold and every one
of its resolved addresses satisfies `lastLookupTime + ttlSeconds ≤ now`;
otherwise the entry is kept, every address whose next lookup time is not
strictly after now (or whose ttl lies within the 5-second margin of 0)
gets `ttlSeconds := minimumTTL` and `lastLookupTime := now`, and
resolutionFailures is incremented by 1. -/
theorem failure_update_removal_iff (dnsName : String)
    (now failureThreshold minimumTTL rcode : Int)
    (before after : List ResolvedName) (e : ResolvedName)
    (hbefore : ∀ b ∈ before, equalFold b.dnsName dnsName = false)
    (he : equalFold e.dnsName dnsName = true)
    (hrf0 : 0 ≤ e.resolutionFailures)
    (hrf1 : e.resolutionFailures + 1 < 2147483648) :
    ((e.resolutionFailures ≥ failureThreshold
        ∧ ∀ a ∈ e.resolvedAddresses, a.lastLookupTime + a.ttlSeconds * nsPerSecond ≤ now) →
      updateResolvedNamesFailureStatus dnsName now failureThreshold minimumTTL rcode
          (before ++ e :: after) = (before ++ after, true))
    ∧ (¬ (e.resolutionFailures ≥ failureThreshold
        ∧ ∀ a ∈ e.resolvedAddresses, a.lastLookupTime + a.ttlSeconds * nsPerSecond ≤ now) →
      ∃ e2, updateResolvedNamesFailureStatus dnsName now failureThreshold minimumTTL rcode
            (before ++ e :: after) = (before ++ e2 :: after, true)
        ∧ e2.dnsName = e.dnsName
        ∧ e2.resolutionFailures = e.resolutionFailures + 1
        ∧ e2.resolvedAddresses = e.resolvedAddresses.map (fun a =>
            if nextLookupTime a ≤ now
                ∨ isSameNextLookupTime now a.lastLookupTime a.ttlSeconds 0 = true then
              (⟨a.ip, minimumTTL, now⟩ : ResolvedAddress)
            else a)) := by
  have hwalk : failureWalk dnsName now failureThreshold minimumTTL rcode []
      (before ++ e :: after)
      = (before ++ (checkAndUpdateResolvedName now failureThreshold minimumTTL rcode e).1
          :: after,
        some (before.length,
          (checkAndUpdateResolvedName now failureThreshold minimumTTL rcode e).2.1,
          (checkAndUpdateResolvedName now failureThreshold minimumTTL rcode e).2.2)) := by
    have hskip := failureWalk_skip dnsName now failureThreshold minimumTTL rcode
      before hbefore [] (e :: after)
    simp only [List.nil_append] at hskip
    rw [hskip]
    show (if equalFold e.dnsName dnsName then _ else _) = _
    rw [he]
    simp
  have hrem : (decide (e.resolutionFailures ≥ failureThreshold) &&
      e.resolvedAddresses.all (fun a => !decide (nextLookupTime a > now))) = true
      ↔ (e.resolutionFailures ≥ failureThreshold
        ∧ ∀ a ∈ e.resolvedAddresses, a.lastLookupTime + a.ttlSeconds * nsPerSecond ≤ now) := by
    simp [List.all_eq_true, not_lt, nextLookupTime]
  constructor
  · intro hcond
    have hr : checkAndUpdateResolvedName now failureThreshold minimumTTL rcode e
        = (e, true, false) := by
      unfold checkAndUpdateResolvedName
      rw [if_pos (hrem.mpr hcond)]
    simp only [updateResolvedNamesFailureStatus, hwalk, hr, if_pos]
    have htake : (before ++ e :: after).take before.length = before :=
      List.take_left before (e :: after)
    have hdrop : (before ++ e :: after).drop (before.length + 1) = after := by
      rw [List.append_cons]
      exact List.drop_left' (by simp)
    rw [htake, hdrop]
  · intro hcond
    have hremF : (decide (e.resolutionFailures ≥ failureThreshold) &&
        e.resolvedAddresses.all (fun a => !decide (nextLookupTime a > now))) = false := by
      cases hb : (decide (e.resolutionFailures ≥ failureThreshold) &&
        e.resolvedAddresses.all (fun a => !decide (nextLookupTime a > now))) with
      | false => rfl
      | true => exact absurd (hrem.mp hb) hcond
    have hr : checkAndUpdateResolvedName now failureThreshold minimumTTL rcode e
        = ({ dnsName := e.dnsName,
             resolvedAddresses := e.resolvedAddresses.map (fun a =>
               if !decide (nextLookupTime a > now)
                   || isSameNextLookupTime now a.lastLookupTime a.ttlSeconds 0 then
                 { a with ttlSeconds := minimumTTL, lastLookupTime := now }
               else a),
             resolutionFailures := i32 (e.resolutionFailures + 1),
             conditions := failureConditionsUpdate now rcode e.conditions }, false, true) := by
      unfold checkAndUpdateResolvedName
      rw [hremF]
      simp
    refine ⟨(checkAndUpdateResolvedName now failureThreshold minimumTTL rcode e).1, ?_, ?_, ?_, ?_⟩
    · simp [updateResolvedNamesFailureStatus, hwalk, hr]
    · rw [hr]
    · rw [hr]
      exact i32_eq_self (e.resolutionFailures + 1) (by omega) hrf1
    · rw [hr]
      refine List.map_congr_left ?_
      intro a _
      by_cases h1 : nextLookupTime a ≤ now
      · have hb1 : (!decide (nextLookupTime a > now)
            || isSameNextLookupTime now a.lastLookupTime a.ttlSeconds 0) = true := by
          simp [not_lt.mpr h1]
        rw [if_pos hb1, if_pos (Or.inl h1)]
      · by_cases h2 : isSameNextLookupTime now a.lastLookupTime a.ttlSeconds 0 = true
        · have hb1 : (!decide (nextLookupTime a > now)
              || isSameNextLookupTime now a.lastLookupTime a.ttlSeconds 0) = true := by
            simp [h2]
          rw [if_pos hb1, if_pos (Or.inr h2)]
        · have h2f : isSameNextLookupTime now a.lastLookupTime a.ttlSeconds 0 = false :=
            Bool.eq_false_iff.mpr h2
          have hb1 : (!decide (nextLookupTime a > now)
              || isSameNextLookupTime now a.lastLookupTime a.ttlSeconds 0) = false := by
            simp [not_le.mp h1, h2f]
          have hor : ¬ (nextLookupTime a ≤ now
              ∨ isSameNextLookupTime now a.lastLookupTime a.ttlSeconds 0 = true) := by
            rintro (h | h)
            · exact h1 h
            · exact h2 h
          rw [if_neg ?side, if_neg hor]
          case side =>
            rw [hb1]
            simp

/-- Witness for C2 at a concrete removal: the matched entry has
resolutionFailures at the threshold and its only address expired 10 seconds
ago, so the entry is spliced out and the unrelated entry survives. -/
theorem failure_update_removal_iff_witness :
    updateResolvedNamesFailureStatus "w.a." (40 * nsPerSecond) 5 5 3
        [⟨"b.a.", [], 0, []⟩, ⟨"w.a.", [⟨"1.1.1.1", 30, 0⟩], 5, []⟩]
      = ([⟨"b.a.", [], 0, []⟩], true) := by
  have h := (failure_update_removal_iff "w.a." (40 * nsPerSecond) 5 5 3
    [⟨"b.a.", [], 0, []⟩] [] ⟨"w.a.", [⟨"1.1.1.1", 30, 0⟩], 5, []⟩
    (by decide) (by decide) (by decide) (by decide)).1 (by decide)
  simpa using h

/-- `sets.Insert` on a string set embedded as a duplicate-free list. -/
def stringSetInsert (s : List String) (x : String) : List String :=
  if s.contains x then s else s ++ [x]

/-- The scanning loop of `isMatchingResolvedName` (`build-coredns.sh` lines
404-417): walk the resolved addresses, failing on an IP absent from the
answer map or with a next lookup time outside the margin, collecting the
matched IPs. -/
def matchScan (now : Int) (ipTTLs : List (String × Int)) :
    List ResolvedAddress → List String → Bool × List String
  | [], acc => (true, acc)
  | a :: rest, acc =>
    match mapFind ipTTLs a.ip with
    | none => (false, acc)
    | some ttl =>
      if !isSameNextLookupTime now a.lastLookupTime a.ttlSeconds ttl then (false, acc)
      else matchScan now ipTTLs rest (stringSetInsert acc a.ip)

/-- `isMatchingResolvedName` (`build-coredns.sh` lines 396-422): all
addresses of the resolved name appear in the answer map within the margin,
and the answer map has no IPs beyond the matched ones. -/
def isMatchingResolvedName (now : Int) (ipTTLs : List (String × Int))
    (resolvedName : ResolvedName) : Bool :=
  let scan := matchScan now ipTTLs resolvedName.resolvedAddresses []
  scan.1 && (ipTTLs.length == scan.2.length)

/-- The first loop of `addUpdateResolvedNameIPTTLs` (`build-coredns.sh`
lines 439-448): refresh the TTL and last lookup time of every existing
address whose IP is in the answer map and whose next lookup time drifted
outside the margin, collecting the matched IPs and whether anything
changed. -/
def updateAddrsScan (now : Int) (ipTTLs : List (String × Int)) :
    List ResolvedAddress → List ResolvedAddress × List String × Bool
  | [] => ([], [], false)
  | a :: rest =>
    match mapFind ipTTLs a.ip with
    | some ttl =>
      let changed := !isSameNextLookupTime now a.lastLookupTime a.ttlSeconds ttl
      let a2 := if changed then (⟨a.ip, ttl, now⟩ : ResolvedAddress) else a
      let r := updateAddrsScan now ipTTLs rest
      (a2 :: r.1, stringSetInsert r.2.1 a.ip, changed || r.2.2)
    | none =>
      let r := updateAddrsScan now ipTTLs rest
      (a :: r.1, r.2.1, r.2.2)

/-- The conditions update of the success path (`addUpdateResolvedNameIPTTLs`,
`build-coredns.sh` lines 470-487): create the Degraded=False condition when
none exists; rewrite the first condition when its status is not False. -/
def successConditionsUpdate (now : Int) : List Condition → List Condition × Bool
  | [] => ([degradedCondition "False" now 0], true)
  | c :: rest =>
    if c.status != "False" then
      ((⟨c.ctype, "False", now, rcodeToString 0, rcodeMessage 0⟩ : Condition) :: rest, true)
    else (c :: rest, false)

/-- `addUpdateResolvedNameIPTTLs` (`build-coredns.sh` lines 427-490) acting
on the entry at the walk's current index: refresh drifted addresses, append
the answer IPs not yet present, zero resolutionFailures and settle the
Degraded=False condition; the boolean is the statusUpdated contribution. -/
def addUpdateResolvedNameIPTTLs (now : Int) (ipTTLs : List (String × Int))
    (e : ResolvedName) : ResolvedName × Bool :=
  let scan := updateAddrsScan now ipTTLs e.resolvedAddresses
  let appended := (ipTTLs.filter (fun p => !scan.2.1.contains p.1)).map
    (fun p => (⟨p.1, p.2, now⟩ : ResolvedAddress))
  let condsR := successConditionsUpdate now e.conditions
  ({ dnsName := e.dnsName,
     resolvedAddresses := scan.1 ++ appended,
     resolutionFailures := 0,
     conditions := condsR.1 },
   scan.2.2 || !appended.isEmpty || condsR.2)

/-- `isRegularMatchingWildcardResolvedName` (`build-coredns.sh` lines
495-534): build the updated wildcard address map — the wildcard entry's
addresses (when found, it is entry 0) with TTLs decayed by the elapsed
seconds (`TTLSeconds - int32(currentTime.Sub(lastLookupTime).Seconds())`,
embedded with truncating division; exact wherever the float64 seconds value
is) overwritten by the answer map — and check that every address of the
regular resolved name appears in it within the margin. -/
def isRegularMatchingWildcardResolvedName (foundDNSName : Bool)
    (entry0 : ResolvedName) (resolvedName : ResolvedName)
    (ipTTLs : List (String × Int)) (now : Int) : Bool :=
  let base : List (String × Int) :=
    if foundDNSName then
      entry0.resolvedAddresses.foldl (fun m a =>
        mapSet m a.ip (i32 (a.ttlSeconds - i32 ((now - a.lastLookupTime).tdiv nsPerSecond)))) []
    else []
  let wildcardIPTTLs := ipTTLs.foldl (fun m p => mapSet m p.1 p.2) base
  resolvedName.resolvedAddresses.all (fun a =>
    match mapFind wildcardIPTTLs a.ip with
    | none => false
    | some ttl => isSameNextLookupTime now a.lastLookupTime a.ttlSeconds ttl)

/-- The loop body of `removeResolvedNames` (`build-coredns.sh` lines
542-550).  The Go loop is `for index := range indicesToRemove`, so `index`
takes the positions `0 .. len-1` of the `indicesToRemove` slice — not its
stored elements; `remaining` counts the iterations left. -/
def removeResolvedNamesLoop :
    Nat → Nat → Nat → List ResolvedName → List ResolvedName
  | 0, _, _, cur => cur
  | Nat.succ remaining, index, count, cur =>
    let pos : Int := (index : Int) - (count : Int)
    let cur2 :=
      if (cur.length : Int) == pos + 1 then cur.take pos.toNat
      else cur.take pos.toNat ++ cur.drop (pos + 1).toNat
    removeResolvedNamesLoop remaining (index + 1) (count + 1) cur2

/-- `removeResolvedNames` (`build-coredns.sh` lines 538-553): run the
position-ranging loop and report whether anything was removed. -/
def removeResolvedNames (indicesToRemove : List Nat) (rns : List ResolvedName) :
    List ResolvedName × Bool :=
  (removeResolvedNamesLoop indicesToRemove.length 0 0 rns,
   indicesToRemove.length != 0)

/-- Because the loop ranges over positions, each iteration removes the
element at offset `index - count = 0`: the net effect is dropping the first
`len(indicesToRemove)` entries, whatever indices were stored. -/
theorem removeResolvedNamesLoop_eq_drop :
    ∀ (remaining n : Nat) (cur : List ResolvedName),
      removeResolvedNamesLoop remaining n n cur = cur.drop remaining := by
  intro remaining
  induction remaining with
  | zero => intro n cur; simp [removeResolvedNamesLoop]
  | succ r ih =>
    intro n cur
    show removeResolvedNamesLoop (r + 1) n n cur = _
    have hpos : ((n : Int) - (n : Int)) = 0 := by omega
    simp only [removeResolvedNamesLoop, hpos]
    have hcur2 : (if (cur.length : Int) == (0 : Int) + 1 then cur.take (0 : Int).toNat
        else cur.take (0 : Int).toNat ++ cur.drop ((0 : Int) + 1).toNat) = cur.drop 1 := by
      by_cases hone : (cur.length : Int) == (0 : Int) + 1
      · rw [if_pos hone]
        have hlen : cur.length = 1 := by
          have := eq_of_beq hone
          omega
        cases cur with
        | nil => simp at hlen
        | cons a t =>
          simp at hlen
          subst hlen
          rfl
      · rw [if_neg hone]
        simp
    rw [hcur2, ih (n + 1) (cur.drop 1)]
    simp

/-- `removeResolvedNames` drops a prefix of the length of the index list. -/
theorem removeResolvedNames_eq_drop (indicesToRemove : List Nat)
    (rns : List ResolvedName) :
    removeResolvedNames indicesToRemove rns
      = (rns.drop indicesToRemove.length, indicesToRemove.length != 0) := by
  unfold removeResolvedNames
  rw [removeResolvedNamesLoop_eq_drop]

/-- The fresh resolved name built by `addResolvedName` (`build-coredns.sh`
lines 564-587): the answer addresses with the current lookup time, zero
failures and a Degraded=False condition. -/
def newResolvedName (dnsName : String) (now : Int)
    (ipTTLs : List (String × Int)) : ResolvedName :=
  { dnsName := dnsName, resolutionFailures := 0,
    conditions := [degradedCondition "False" now 0],
    resolvedAddresses := ipTTLs.map (fun p => (⟨p.1, p.2, now⟩ : ResolvedAddress)) }

/-- `addResolvedName` (`build-coredns.sh` lines 558-596): prepend the fresh
entry for a wildcard DNS name, append it for a regular one. -/
def addResolvedName (dnsName : String) (now : Int)
    (ipTTLs : List (String × Int)) (rns : List ResolvedName) : List ResolvedName :=
  if isWildcard dnsName then newResolvedName dnsName now ipTTLs :: rns
  else rns ++ [newResolvedName dnsName now ipTTLs]

/-- The mutable flags of the success walk (`updateResolvedNamesSuccess`,
`build-coredns.sh` lines 267-288). -/
structure WalkFlags where
  foundResolvedName : Bool
  existingIndex : Nat
  matchedWildcard : Bool
  statusUpdated : Bool
  indicesMatchingWildcard : List Nat
  deriving Repr, DecidableEq

/-- Initial flags of the success walk. -/
def initWalkFlags : WalkFlags := ⟨false, 0, false, false, []⟩

/-- One iteration body of the `updateResolvedNamesSuccess` walk
(`build-coredns.sh` lines 294-349): case 1 probes the wildcard-spec entry
on a regular lookup, case 2 updates the entry equal (fold) to the looked-up
name, case 3 collects regular entries matching a wildcard lookup (`entry0`
is element 0 of the current list). -/
def successWalkStep (specDNSName dnsName : String) (ipTTLs : List (String × Int))
    (now : Int) (index : Nat) (entry0 : ResolvedName) (st : WalkFlags)
    (e : ResolvedName) : ResolvedName × WalkFlags :=
  if isWildcard specDNSName && !isWildcard dnsName
      && equalFold e.dnsName specDNSName then
    (e, (⟨st.foundResolvedName, st.existingIndex,
      isMatchingResolvedName now ipTTLs e, st.statusUpdated,
      st.indicesMatchingWildcard⟩ : WalkFlags))
  else if equalFold e.dnsName dnsName then
    let r := addUpdateResolvedNameIPTTLs now ipTTLs e
    (r.1, (⟨true, index, false, r.2, st.indicesMatchingWildcard⟩ : WalkFlags))
  else if isWildcard dnsName then
    if isRegularMatchingWildcardResolvedName st.foundResolvedName
        entry0 e ipTTLs now then
      (e, (⟨st.foundResolvedName, st.existingIndex, st.matchedWildcard,
        st.statusUpdated, st.indicesMatchingWildcard ++ [index]⟩ : WalkFlags))
    else (e, st)
  else (e, st)

/-- The walk of `updateResolvedNamesSuccess` (`build-coredns.sh` lines
294-349) as a zipper: `done` holds the already-processed prefix of the
(mutated-in-place) list, `e :: rest` the remainder; the loop breaks early
when a regular lookup on a wildcard spec has found its entry past
index 0. -/
def successWalkGo (specDNSName dnsName : String) (ipTTLs : List (String × Int))
    (now : Int) :
    List ResolvedName → WalkFlags → List ResolvedName → List ResolvedName × WalkFlags
  | done, st, [] => (done, st)
  | done, st, e :: rest =>
    let step := successWalkStep specDNSName dnsName ipTTLs now done.length
      (done.headD e) st e
    if !isWildcard dnsName && isWildcard specDNSName && step.2.foundResolvedName
        && decide (done.length > 0) then
      (done ++ step.1 :: rest, step.2)
    else
      successWalkGo specDNSName dnsName ipTTLs now (done ++ [step.1]) step.2 rest

/-- The status composition of `updateResolvedNamesSuccess`
(`build-coredns.sh` lines 294-377): run the walk; on a wildcard lookup run
`removeResolvedNames` over the collected indices; on a regular lookup that
completely matched the wildcard entry remove the found entry via
`removeResolvedNames`; otherwise append or prepend a fresh entry when none
was found.  The boolean is `statusUpdated`, i.e. whether an updateStatus
RPC is issued. -/
def updateResolvedNamesSuccessStatus (specDNSName dnsName : String)
    (ipTTLs : List (String × Int)) (now : Int) (rns : List ResolvedName) :
    List ResolvedName × Bool :=
  let w := successWalkGo specDNSName dnsName ipTTLs now [] initWalkFlags rns
  let st := w.2
  let afterRemove :=
    if isWildcard dnsName then
      let r := removeResolvedNames st.indicesMatchingWildcard w.1
      (r.1, st.statusUpdated || r.2)
    else (w.1, st.statusUpdated)
  if !isWildcard dnsName && st.matchedWildcard then
    let indexList := if st.foundResolvedName then [st.existingIndex] else []
    let r := removeResolvedNames indexList afterRemove.1
    (r.1, afterRemove.2 || r.2)
  else if !st.foundResolvedName then
    (addResolvedName dnsName now ipTTLs afterRemove.1, true)
  else afterRemove

/-- C1 (code bug): a wildcard lookup on a wildcard CR whose status holds the
wildcard entry at index 0 and one completely matching regular-subdomain
entry at index 1.  The walk collects exactly index 1 for removal, but
`removeResolvedNames` ranges over the positions of its index slice, so it
drops the first entry instead: the wildcard entry is deleted and the
matched regular entry survives, contradicting the specified compaction
(delete exactly the matched entries, preserve the rest). -/
theorem wildcard_absorption_removes_wrong_entries :
    updateResolvedNamesSuccessStatus "*.a." "*.a." [("1.1.1.1", 30)] 1000000000000
        [⟨"*.a.", [⟨"1.1.1.1", 30, 1000000000000⟩], 0,
            [degradedCondition "False" 1000000000000 0]⟩,
          ⟨"w.a.", [⟨"1.1.1.1", 30, 1000000000000⟩], 0,
            [degradedCondition "False" 1000000000000 0]⟩]
      = ([⟨"w.a.", [⟨"1.1.1.1", 30, 1000000000000⟩], 0,
            [degradedCondition "False" 1000000000000 0]⟩], true) := by
  decide

/-- The walk step never changes the DNS name of the processed entry. -/
theorem successWalkStep_dnsName (specDNSName dnsName : String)
    (ipTTLs : List (String × Int)) (now : Int) (index : Nat)
    (entry0 : ResolvedName) (st : WalkFlags) (e : ResolvedName) :
    (successWalkStep specDNSName dnsName ipTTLs now index entry0 st e).1.dnsName
      = e.dnsName := by
  unfold successWalkStep
  split
  · rfl
  · split
    · rfl
    · split
      · split
        · rfl
        · rfl
      · rfl

/-- The walk step preserves an already-set found flag. -/
theorem successWalkStep_found_mono (specDNSName dnsName : String)
    (ipTTLs : List (String × Int)) (now : Int) (index : Nat)
    (entry0 : ResolvedName) (st : WalkFlags) (e : ResolvedName)
    (h : st.foundResolvedName = true) :
    (successWalkStep specDNSName dnsName ipTTLs now index entry0 st e).2.foundResolvedName
      = true := by
  unfold successWalkStep
  split
  · exact h
  · split
    · rfl
    · split
      · split
        · exact h
        · exact h
      · exact h

/-- On an entry that does not match the looked-up name, the walk step keeps
the entry and the found flag. -/
theorem successWalkStep_nomatch (specDNSName dnsName : String)
    (ipTTLs : List (String × Int)) (now : Int) (index : Nat)
    (entry0 : ResolvedName) (st : WalkFlags) (e : ResolvedName)
    (h : equalFold e.dnsName dnsName = false) :
    (successWalkStep specDNSName dnsName ipTTLs now index entry0 st e).1 = e
      ∧ (successWalkStep specDNSName dnsName ipTTLs now index entry0 st e).2.foundResolvedName
        = st.foundResolvedName := by
  unfold successWalkStep
  split
  · exact ⟨rfl, rfl⟩
  · split
    · next hc2 =>
      rw [h] at hc2
      cases hc2
    · split
      · split
        · exact ⟨rfl, rfl⟩
        · exact ⟨rfl, rfl⟩
      · exact ⟨rfl, rfl⟩

/-- On a wildcard lookup, the step on an entry matching the looked-up name
sets the found flag. -/
theorem successWalkStep_found_of_match (specDNSName dnsName : String)
    (ipTTLs : List (String × Int)) (now : Int) (index : Nat)
    (entry0 : ResolvedName) (st : WalkFlags) (e : ResolvedName)
    (hw : isWildcard dnsName = true) (h : equalFold e.dnsName dnsName = true) :
    (successWalkStep specDNSName dnsName ipTTLs now index entry0 st e).2.foundResolvedName
      = true := by
  have hc1 : (isWildcard specDNSName && !isWildcard dnsName
      && equalFold e.dnsName specDNSName) = false := by
    rw [hw]
    simp
  simp [successWalkStep, hc1, h]

/-- The walk preserves the list of DNS names of the status entries. -/
theorem successWalkGo_names (specDNSName dnsName : String)
    (ipTTLs : List (String × Int)) (now : Int) :
    ∀ (rest done : List ResolvedName) (st : WalkFlags),
      ((successWalkGo specDNSName dnsName ipTTLs now done st rest).1).map
          (fun e => e.dnsName)
        = (done ++ rest).map (fun e => e.dnsName) := by
  intro rest
  induction rest with
  | nil => intro done st; simp [successWalkGo]
  | cons e rest ih =>
    intro done st
    simp only [successWalkGo]
    split
    · simp [successWalkStep_dnsName]
    · rw [ih]
      simp [successWalkStep_dnsName]

/-- The walk keeps an already-set found flag set. -/
theorem successWalkGo_found_mono (specDNSName dnsName : String)
    (ipTTLs : List (String × Int)) (now : Int) :
    ∀ (rest done : List ResolvedName) (st : WalkFlags),
      st.foundResolvedName = true →
      ((successWalkGo specDNSName dnsName ipTTLs now done st rest).2).foundResolvedName
        = true := by
  intro rest
  induction rest with
  | nil => intro done st h; exact h
  | cons e rest ih =>
    intro done st h
    simp only [successWalkGo]
    split
    · exact successWalkStep_found_mono specDNSName dnsName ipTTLs now
        done.length (done.headD e) st e h
    · exact ih _ _
        (successWalkStep_found_mono specDNSName dnsName ipTTLs now
          done.length (done.headD e) st e h)

/-- On a wildcard lookup, the walk sets the found flag whenever some
remaining entry matches the looked-up name. -/
theorem successWalkGo_found_of_mem (specDNSName dnsName : String)
    (ipTTLs : List (String × Int)) (now : Int) (hw : isWildcard dnsName = true) :
    ∀ (rest done : List ResolvedName) (st : WalkFlags) (e : ResolvedName),
      e ∈ rest → equalFold e.dnsName dnsName = true →
      ((successWalkGo specDNSName dnsName ipTTLs now done st rest).2).foundResolvedName
        = true := by
  intro rest
  induction rest with
  | nil => intro done st e he _; cases he
  | cons x rest ih =>
    intro done st e he hmatch
    simp only [successWalkGo]
    have hbreak : (!isWildcard dnsName && isWildcard specDNSName
        && (successWalkStep specDNSName dnsName ipTTLs now done.length
            (done.headD x) st x).2.foundResolvedName
        && decide (done.length > 0)) = false := by
      rw [hw]
      simp
    rw [if_neg (by rw [hbreak]; simp)]
    rcases List.mem_cons.mp he with heq | hmem
    · subst heq
      exact successWalkGo_found_mono specDNSName dnsName ipTTLs now rest _ _
        (successWalkStep_found_of_match specDNSName dnsName ipTTLs now
          done.length (done.headD e) st e hw hmatch)
    · exact ih _ _ e hmem hmatch

/-- When no remaining entry matches the looked-up name, the walk leaves the
list unchanged and the found flag as it was. -/
theorem successWalkGo_nomatch (specDNSName dnsName : String)
    (ipTTLs : List (String × Int)) (now : Int) :
    ∀ (rest done : List ResolvedName) (st : WalkFlags),
      (∀ e ∈ rest, equalFold e.dnsName dnsName = false) →
      (successWalkGo specDNSName dnsName ipTTLs now done st rest).1 = done ++ rest
        ∧ ((successWalkGo specDNSName dnsName ipTTLs now done st rest).2).foundResolvedName
          = st.foundResolvedName := by
  intro rest
  induction rest with
  | nil => intro done st _; exact ⟨by simp [successWalkGo], rfl⟩
  | cons e rest ih =>
    intro done st hno
    have hx : equalFold e.dnsName dnsName = false := hno e (List.mem_cons_self e rest)
    have hrest : ∀ x ∈ rest, equalFold x.dnsName dnsName = false :=
      fun x hx2 => hno x (List.mem_cons_of_mem e hx2)
    have hstep := successWalkStep_nomatch specDNSName dnsName ipTTLs now
      done.length (done.headD e) st e hx
    simp only [successWalkGo]
    split
    · rw [hstep.1, hstep.2]
      exact ⟨rfl, rfl⟩
    · constructor
      · rw [(ih _ _ hrest).1, hstep.1]
        simp
      · rw [(ih _ _ hrest).2, hstep.2]

/-- C4: for a CR with wildcard spec, after a success update composed for a
lookup the Interceptor can route to it (the wildcard itself or a regular
name), no entry beyond index 0 carries the wildcard spec name — i.e. if a
resolved name for the exact wildcard exists it is at index 0; moreover a
newly created wildcard entry is prepended at index 0 and a newly created
regular entry is appended at the end. -/
theorem wildcard_first_ordering (specDNSName dnsName : String)
    (ipTTLs : List (String × Int)) (now : Int) (rns : List ResolvedName)
    (hspec : isWildcard specDNSName = true)
    (hd : dnsName = specDNSName
      ∨ (isWildcard dnsName = false ∧ equalFold dnsName specDNSName = false))
    (hpre : ∀ s ∈ ((rns.map (fun e => e.dnsName)).drop 1),
      equalFold s specDNSName = false) :
    (∀ s ∈ (((updateResolvedNamesSuccessStatus specDNSName dnsName ipTTLs now
          rns).1.map (fun e => e.dnsName)).drop 1),
        equalFold s specDNSName = false)
      ∧ (dnsName = specDNSName →
          (∀ e ∈ rns, equalFold e.dnsName dnsName = false) →
          ∃ k, (updateResolvedNamesSuccessStatus specDNSName dnsName ipTTLs now rns).1
            = newResolvedName dnsName now ipTTLs :: rns.drop k)
      ∧ (isWildcard dnsName = false →
          (∀ e ∈ rns, equalFold e.dnsName dnsName = false) →
          (updateResolvedNamesSuccessStatus specDNSName dnsName ipTTLs now rns).1
              = rns ++ [newResolvedName dnsName now ipTTLs]
            ∨ (updateResolvedNamesSuccessStatus specDNSName dnsName ipTTLs now
                rns).1 = rns) := by
  have hnames := successWalkGo_names specDNSName dnsName ipTTLs now rns [] initWalkFlags
  simp only [List.nil_append] at hnames
  by_cases hwild : isWildcard dnsName = true
  · have hdn : dnsName = specDNSName := by
      rcases hd with h | h
      · exact h
      · rw [h.1] at hwild
        cases hwild
    by_cases hfound : (successWalkGo specDNSName dnsName ipTTLs now [] initWalkFlags
        rns).2.foundResolvedName = true
    · have hout : (updateResolvedNamesSuccessStatus specDNSName dnsName ipTTLs now
          rns).1
          = ((successWalkGo specDNSName dnsName ipTTLs now [] initWalkFlags rns).1).drop
              ((successWalkGo specDNSName dnsName ipTTLs now [] initWalkFlags
                rns).2.indicesMatchingWildcard.length) := by
        simp only [updateResolvedNamesSuccessStatus, hwild, removeResolvedNames_eq_drop,
          hfound]
        simp
      rw [hout]
      refine ⟨?_, ?_, ?_⟩
      · intro s hs
        rw [List.map_drop, hnames, List.drop_drop] at hs
        rw [Nat.add_comm] at hs
        rw [← List.drop_drop] at hs
        exact hpre s (List.drop_subset _ _ hs)
      · intro _ hnone
        have hW3 := successWalkGo_nomatch specDNSName dnsName ipTTLs now rns []
          initWalkFlags hnone
        rw [hW3.2] at hfound
        cases hfound
      · intro hreg _
        rw [hreg] at hwild
        cases hwild
    · have hfoundF : (successWalkGo specDNSName dnsName ipTTLs now [] initWalkFlags
          rns).2.foundResolvedName = false := Bool.eq_false_iff.mpr hfound
      have hout : (updateResolvedNamesSuccessStatus specDNSName dnsName ipTTLs now
          rns).1
          = newResolvedName dnsName now ipTTLs ::
            ((successWalkGo specDNSName dnsName ipTTLs now [] initWalkFlags rns).1).drop
              ((successWalkGo specDNSName dnsName ipTTLs now [] initWalkFlags
                rns).2.indicesMatchingWildcard.length) := by
        simp only [updateResolvedNamesSuccessStatus, hwild, removeResolvedNames_eq_drop,
          hfoundF, addResolvedName]
        simp [hwild]
      rw [hout]
      refine ⟨?_, ?_, ?_⟩
      · intro s hs
        simp only [List.map_cons, List.drop_succ_cons, List.drop_zero] at hs
        rw [List.map_drop, hnames] at hs
        have hsmem : s ∈ List.map (fun e => e.dnsName) rns := List.drop_subset _ _ hs
        cases hrns : rns with
        | nil =>
          rw [hrns] at hsmem
          cases hsmem
        | cons r0 rtail =>
          rw [hrns] at hsmem
          simp only [List.map_cons, List.mem_cons] at hsmem
          rcases hsmem with hs0 | hstail
          · cases hc : equalFold s specDNSName with
            | false => rfl
            | true =>
              exfalso
              have hr0 : equalFold r0.dnsName dnsName = true := by
                rw [hdn, ← hs0]
                exact hc
              have hfoundT := successWalkGo_found_of_mem specDNSName dnsName ipTTLs
                now hwild rns [] initWalkFlags r0
                (by rw [hrns]; exact List.mem_cons_self r0 rtail) hr0
              rw [hfoundF] at hfoundT
              cases hfoundT
          · refine hpre s ?_
            rw [hrns]
            simpa using hstail
      · intro _ hnone
        have hW3 := successWalkGo_nomatch specDNSName dnsName ipTTLs now rns []
          initWalkFlags hnone
        refine ⟨(successWalkGo specDNSName dnsName ipTTLs now [] initWalkFlags
          rns).2.indicesMatchingWildcard.length, ?_⟩
        rw [hW3.1, List.nil_append]
      · intro hreg _
        rw [hreg] at hwild
        cases hwild
  · have hwildF : isWildcard dnsName = false := Bool.eq_false_iff.mpr hwild
    have hns : equalFold dnsName specDNSName = false := by
      rcases hd with h | h
      · rw [h, hspec] at hwildF
        cases hwildF
      · exact h.2
    have hnotspec : ¬ dnsName = specDNSName := by
      intro h
      rw [h, hspec] at hwildF
      cases hwildF
    by_cases hm : (successWalkGo specDNSName dnsName ipTTLs now [] initWalkFlags
        rns).2.matchedWildcard = true
    · by_cases hfound : (successWalkGo specDNSName dnsName ipTTLs now [] initWalkFlags
          rns).2.foundResolvedName = true
      · have hout : (updateResolvedNamesSuccessStatus specDNSName dnsName ipTTLs now
            rns).1
            = ((successWalkGo specDNSName dnsName ipTTLs now [] initWalkFlags
                rns).1).drop 1 := by
          simp only [updateResolvedNamesSuccessStatus, hwildF, hm, hfound,
            removeResolvedNames_eq_drop]
          simp
        rw [hout]
        refine ⟨?_, fun h _ => absurd h hnotspec, ?_⟩
        · intro s hs
          rw [List.map_drop, hnames, List.drop_drop] at hs
          refine hpre s ?_
          rw [← List.drop_drop] at hs
          exact List.drop_subset _ _ hs
        · intro _ hnone
          have hW3 := successWalkGo_nomatch specDNSName dnsName ipTTLs now rns []
            initWalkFlags hnone
          rw [hW3.2] at hfound
          cases hfound
      · have hfoundF : (successWalkGo specDNSName dnsName ipTTLs now [] initWalkFlags
            rns).2.foundResolvedName = false := Bool.eq_false_iff.mpr hfound
        have hout : (updateResolvedNamesSuccessStatus specDNSName dnsName ipTTLs now
            rns).1
            = (successWalkGo specDNSName dnsName ipTTLs now [] initWalkFlags rns).1 := by
          simp only [updateResolvedNamesSuccessStatus, hwildF, hm, hfoundF,
            removeResolvedNames_eq_drop]
          simp
        rw [hout]
        refine ⟨?_, fun h _ => absurd h hnotspec, ?_⟩
        · intro s hs
          rw [hnames] at hs
          exact hpre s hs
        · intro _ hnone
          have hW3 := successWalkGo_nomatch specDNSName dnsName ipTTLs now rns []
            initWalkFlags hnone
          rw [hW3.1]
          exact Or.inr rfl
    · have hmF : (successWalkGo specDNSName dnsName ipTTLs now [] initWalkFlags
          rns).2.matchedWildcard = false := Bool.eq_false_iff.mpr hm
      by_cases hfound : (successWalkGo specDNSName dnsName ipTTLs now [] initWalkFlags
          rns).2.foundResolvedName = true
      · have hout : (updateResolvedNamesSuccessStatus specDNSName dnsName ipTTLs now
            rns).1
            = (successWalkGo specDNSName dnsName ipTTLs now [] initWalkFlags rns).1 := by
          simp only [updateResolvedNamesSuccessStatus, hwildF, hmF, hfound]
          simp
        rw [hout]
        refine ⟨?_, fun h _ => absurd h hnotspec, ?_⟩
        · intro s hs
          rw [hnames] at hs
          exact hpre s hs
        · intro _ hnone
          have hW3 := successWalkGo_nomatch specDNSName dnsName ipTTLs now rns []
            initWalkFlags hnone
          rw [hW3.2] at hfound
          cases hfound
      · have hfoundF : (successWalkGo specDNSName dnsName ipTTLs now [] initWalkFlags
            rns).2.foundResolvedName = false := Bool.eq_false_iff.mpr hfound
        have hout : (updateResolvedNamesSuccessStatus specDNSName dnsName ipTTLs now
            rns).1
            = (successWalkGo specDNSName dnsName ipTTLs now [] initWalkFlags rns).1
              ++ [newResolvedName dnsName now ipTTLs] := by
          simp only [updateResolvedNamesSuccessStatus, hwildF, hmF, hfoundF,
            addResolvedName]
          simp [hwildF]
        rw [hout]
        refine ⟨?_, fun h _ => absurd h hnotspec, ?_⟩
        · intro s hs
          rw [List.map_append, hnames] at hs
          cases hrns : rns with
          | nil =>
            rw [hrns] at hs
            simp at hs
          | cons r0 rtail =>
            rw [hrns] at hs
            simp only [List.map_cons, List.cons_append, List.drop_succ_cons,
              List.drop_zero] at hs
            rcases List.mem_append.mp hs with hleft | hright
            · refine hpre s ?_
              rw [hrns]
              simpa using hleft
            · simp only [List.map_cons, List.map_nil, List.mem_singleton] at hright
              rw [hright]
              exact hns
        · intro _ hnone
          have hW3 := successWalkGo_nomatch specDNSName dnsName ipTTLs now rns []
            initWalkFlags hnone
          rw [hW3.1]
          exact Or.inl rfl

theorem wildcard_first_ordering_witness :
    (updateResolvedNamesSuccessStatus "*.a." "sub.a." [("1.1.1.1", 30)] 0 []).1
        = [] ++ [newResolvedName "sub.a." 0 [("1.1.1.1", 30)]]
      ∨ (updateResolvedNamesSuccessStatus "*.a." "sub.a." [("1.1.1.1", 30)] 0 []).1
        = [] :=
  (wildcard_first_ordering "*.a." "sub.a." [("1.1.1.1", 30)] 0 []
    (by decide) (Or.inr ⟨by decide, by decide⟩)
    (by intro s hs; simp at hs)).2.2 (by decide)
    (by intro e he; simp at he)

/-- `stringSetInsert` makes its argument a member. -/
theorem stringSetInsert_contains_self (s : List String) (x : String) :
    (stringSetInsert s x).contains x = true := by
  by_cases h : x ∈ s
  · simp [stringSetInsert, h]
  · simp [stringSetInsert, h]

/-- `stringSetInsert` keeps existing members. -/
theorem stringSetInsert_contains_mono (s : List String) (x y : String)
    (h : s.contains y = true) : (stringSetInsert s x).contains y = true := by
  have hy : y ∈ s := by simpa using h
  by_cases hx : x ∈ s
  · simp [stringSetInsert, hx, hy]
  · simp [stringSetInsert, hx, hy]

/-- When every existing address with an IP in the answer map is within the
margin, the refresh loop of `addUpdateResolvedNameIPTTLs` keeps every
address and reports no change. -/
theorem updateAddrsScan_noop (now : Int) (ipTTLs : List (String × Int)) :
    ∀ addrs : List ResolvedAddress,
      (∀ a ∈ addrs, ∀ ttl, mapFind ipTTLs a.ip = some ttl →
        isSameNextLookupTime now a.lastLookupTime a.ttlSeconds ttl = true) →
      (updateAddrsScan now ipTTLs addrs).1 = addrs
        ∧ (updateAddrsScan now ipTTLs addrs).2.2 = false := by
  intro addrs
  induction addrs with
  | nil => intro _; simp [updateAddrsScan]
  | cons a rest ih =>
    intro h
    have hrest := ih (fun b hb ttl hf => h b (List.mem_cons_of_mem a hb) ttl hf)
    cases hfind : mapFind ipTTLs a.ip with
    | none =>
      simp only [updateAddrsScan, hfind]
      exact ⟨by rw [hrest.1], hrest.2⟩
    | some ttl =>
      have hsame := h a (List.mem_cons_self a rest) ttl hfind
      simp only [updateAddrsScan, hfind, hsame]
      constructor
      · simp [hsame, hrest.1]
      · simp [hsame, hrest.2]

/-- Every answer IP borne by some existing address is collected by the
refresh loop. -/
theorem updateAddrsScan_collects (now : Int) (ipTTLs : List (String × Int)) :
    ∀ (addrs : List ResolvedAddress) (ip : String),
      (∃ a ∈ addrs, a.ip = ip) → (mapFind ipTTLs ip).isSome = true →
      ((updateAddrsScan now ipTTLs addrs).2.1).contains ip = true := by
  intro addrs
  induction addrs with
  | nil =>
    intro ip h _
    rcases h with ⟨a, ha, _⟩
    cases ha
  | cons a rest ih =>
    intro ip h hsome
    rcases h with ⟨b, hb, hbip⟩
    rcases List.mem_cons.mp hb with hba | hbrest
    · have hip : a.ip = ip := by rw [← hba, hbip]
      cases hfind : mapFind ipTTLs a.ip with
      | none =>
        exfalso
        rw [hip] at hfind
        rw [hfind] at hsome
        simp at hsome
      | some ttl =>
        simp only [updateAddrsScan, hfind]
        rw [← hip]
        exact stringSetInsert_contains_self _ _
    · have htail := ih ip ⟨b, hbrest, hbip⟩ hsome
      cases hfind : mapFind ipTTLs a.ip with
      | none =>
        simp only [updateAddrsScan, hfind]
        exact htail
      | some ttl =>
        simp only [updateAddrsScan, hfind]
        exact stringSetInsert_contains_mono _ _ _ htail

/-- `addUpdateResolvedNameIPTTLs` is the identity, and contributes no status
update, on an entry that already carries every answer IP within the margin,
has zero resolution failures and whose first condition has status False. -/
theorem addUpdateResolvedNameIPTTLs_noop (now : Int) (ipTTLs : List (String × Int))
    (e : ResolvedName)
    (hmargin : ∀ a ∈ e.resolvedAddresses, ∀ ttl, mapFind ipTTLs a.ip = some ttl →
      isSameNextLookupTime now a.lastLookupTime a.ttlSeconds ttl = true)
    (hhave : ∀ p ∈ ipTTLs, ∃ a ∈ e.resolvedAddresses, a.ip = p.1)
    (hrf : e.resolutionFailures = 0)
    (hcond : ∃ c cs, e.conditions = c :: cs ∧ c.status = "False") :
    addUpdateResolvedNameIPTTLs now ipTTLs e = (e, false) := by
  obtain ⟨c, cs, hcs, hcF⟩ := hcond
  have hscan := updateAddrsScan_noop now ipTTLs e.resolvedAddresses hmargin
  have happ : ipTTLs.filter
      (fun p => !((updateAddrsScan now ipTTLs e.resolvedAddresses).2.1).contains p.1)
      = [] := by
    rw [List.filter_eq_nil_iff]
    intro p hp
    have hsome : (mapFind ipTTLs p.1).isSome = true := by
      cases hf : (ipTTLs.find? (fun q => q.1 == p.1)) with
      | some q => simp [mapFind, hf]
      | none =>
        exfalso
        have := List.find?_eq_none.mp hf p hp
        simp at this
    have hcol := updateAddrsScan_collects now ipTTLs e.resolvedAddresses p.1
      (hhave p hp) hsome
    simpa using hcol
  have hconds : successConditionsUpdate now e.conditions = (e.conditions, false) := by
    rw [hcs]
    simp [successConditionsUpdate, hcF]
  simp only [addUpdateResolvedNameIPTTLs, hscan.1, hscan.2, happ, hconds,
    List.map_nil, List.append_nil, List.isEmpty_nil]
  refine Prod.ext ?_ ?_
  · show (⟨e.dnsName, e.resolvedAddresses, 0, e.conditions⟩ : ResolvedName) = e
    conv_rhs => rw [show e = (⟨e.dnsName, e.resolvedAddresses,
      e.resolutionFailures, e.conditions⟩ : ResolvedName) from rfl]
    rw [hrf]
  · rfl

/-- One walk step is the identity on the entry and raises only the
`foundResolvedName` flag when the entry's update is a no-op, a wildcard-spec
probe does not match completely, and (on a wildcard lookup) the entry does
not match the wildcard answer map. -/
theorem successWalkStep_noop (specDNSName dnsName : String)
    (ipTTLs : List (String × Int)) (now : Int) (index : Nat)
    (entry0 : ResolvedName) (st : WalkFlags) (e : ResolvedName)
    (hA : (isWildcard specDNSName && !isWildcard dnsName
        && equalFold e.dnsName specDNSName) = true →
      isMatchingResolvedName now ipTTLs e = false)
    (hB : equalFold e.dnsName dnsName = true →
      addUpdateResolvedNameIPTTLs now ipTTLs e = (e, false))
    (hC : isWildcard dnsName = true → equalFold e.dnsName dnsName = false →
      isRegularMatchingWildcardResolvedName st.foundResolvedName entry0 e
        ipTTLs now = false)
    (hD : equalFold e.dnsName dnsName = true →
      (isWildcard specDNSName && !isWildcard dnsName
        && equalFold e.dnsName specDNSName) = false)
    (hm : st.matchedWildcard = false) (hu : st.statusUpdated = false)
    (hi : st.indicesMatchingWildcard = []) :
    (successWalkStep specDNSName dnsName ipTTLs now index entry0 st e).1 = e
      ∧ (successWalkStep specDNSName dnsName ipTTLs now index entry0 st
          e).2.matchedWildcard = false
      ∧ (successWalkStep specDNSName dnsName ipTTLs now index entry0 st
          e).2.statusUpdated = false
      ∧ (successWalkStep specDNSName dnsName ipTTLs now index entry0 st
          e).2.indicesMatchingWildcard = []
      ∧ (successWalkStep specDNSName dnsName ipTTLs now index entry0 st
          e).2.foundResolvedName
          = (st.foundResolvedName || equalFold e.dnsName dnsName) := by
  unfold successWalkStep
  by_cases hc1 : (isWildcard specDNSName && !isWildcard dnsName
      && equalFold e.dnsName specDNSName) = true
  · rw [if_pos hc1]
    have hc2 : equalFold e.dnsName dnsName = false := by
      cases hx : equalFold e.dnsName dnsName with
      | false => rfl
      | true =>
        rw [hD hx] at hc1
        cases hc1
    exact ⟨rfl, hA hc1, hu, hi, by rw [hc2, Bool.or_false]⟩
  · rw [if_neg hc1]
    by_cases hc2 : equalFold e.dnsName dnsName = true
    · rw [if_pos hc2]
      refine ⟨?_, rfl, ?_, hi, ?_⟩
      · show (addUpdateResolvedNameIPTTLs now ipTTLs e).1 = e
        rw [hB hc2]
      · show (addUpdateResolvedNameIPTTLs now ipTTLs e).2 = false
        rw [hB hc2]
      · rw [hc2, Bool.or_true]
    · rw [if_neg hc2]
      have hc2f : equalFold e.dnsName dnsName = false := Bool.eq_false_iff.mpr hc2
      by_cases hw : isWildcard dnsName = true
      · rw [if_pos hw]
        have hreg := hC hw hc2f
        rw [if_neg (by rw [hreg]; exact Bool.false_ne_true)]
        exact ⟨rfl, hm, hu, hi, by rw [hc2f, Bool.or_false]⟩
      · rw [if_neg hw]
        exact ⟨rfl, hm, hu, hi, by rw [hc2f, Bool.or_false]⟩

/-- The success walk leaves the list unchanged, raises no wildcard or
update flag and collects no removal index when every entry of the ambient
list `L` satisfies the per-entry no-op conditions; `foundResolvedName` ends
true exactly when the processed part contains a fold-equal entry. -/
theorem successWalkGo_noop (specDNSName dnsName : String)
    (ipTTLs : List (String × Int)) (now : Int) (L : List ResolvedName)
    (h2 : ∀ e ∈ L, equalFold e.dnsName dnsName = true →
      addUpdateResolvedNameIPTTLs now ipTTLs e = (e, false))
    (h1 : ∀ e ∈ L, isWildcard specDNSName = true → isWildcard dnsName = false →
      equalFold e.dnsName specDNSName = true →
      isMatchingResolvedName now ipTTLs e = false)
    (h3 : isWildcard dnsName = true → ∀ e ∈ L,
      equalFold e.dnsName dnsName = false → ∀ (b : Bool), ∀ e0 ∈ L,
      isRegularMatchingWildcardResolvedName b e0 e ipTTLs now = false)
    (h4 : ∀ e ∈ L, equalFold e.dnsName dnsName = true →
      isWildcard specDNSName = true → isWildcard dnsName = false →
      equalFold e.dnsName specDNSName = false) :
    ∀ (rest done : List ResolvedName) (st : WalkFlags),
      (∀ e ∈ rest, e ∈ L) → (∀ e ∈ done, e ∈ L) →
      st.matchedWildcard = false → st.statusUpdated = false →
      st.indicesMatchingWildcard = [] →
      (successWalkGo specDNSName dnsName ipTTLs now done st rest).1 = done ++ rest
        ∧ (successWalkGo specDNSName dnsName ipTTLs now done st
            rest).2.matchedWildcard = false
        ∧ (successWalkGo specDNSName dnsName ipTTLs now done st
            rest).2.statusUpdated = false
        ∧ (successWalkGo specDNSName dnsName ipTTLs now done st
            rest).2.indicesMatchingWildcard = []
        ∧ (successWalkGo specDNSName dnsName ipTTLs now done st
            rest).2.foundResolvedName
            = (st.foundResolvedName
                || rest.any (fun e => equalFold e.dnsName dnsName)) := by
  intro rest
  induction rest with
  | nil =>
    intro done st _ _ hm hu hi
    simp [successWalkGo, hm, hu, hi]
  | cons e rest ih =>
    intro done st hrest hdone hm hu hi
    have heL : e ∈ L := hrest e (List.mem_cons_self e rest)
    have he0 : done.headD e ∈ L := by
      cases done with
      | nil => exact heL
      | cons d ds => exact hdone d (List.mem_cons_self d ds)
    have hstep := successWalkStep_noop specDNSName dnsName ipTTLs now done.length
      (done.headD e) st e
      (fun hc1 => by
        rw [Bool.and_eq_true, Bool.and_eq_true] at hc1
        exact h1 e heL hc1.1.1 (by simpa using hc1.1.2) hc1.2)
      (h2 e heL)
      (fun hw hne => h3 hw e heL hne st.foundResolvedName (done.headD e) he0)
      (fun hf => by
        cases hws : isWildcard specDNSName with
        | false => simp [hws]
        | true =>
          cases hwd : isWildcard dnsName with
          | true => simp [hwd]
          | false => simp [hws, hwd, h4 e heL hf hws hwd])
      hm hu hi
    simp only [successWalkGo]
    split
    · rename_i hbreak
      have hfT : (successWalkStep specDNSName dnsName ipTTLs now done.length
          (done.headD e) st e).2.foundResolvedName = true := by
        rw [Bool.and_eq_true, Bool.and_eq_true, Bool.and_eq_true] at hbreak
        exact hbreak.1.2
      refine ⟨?_, hstep.2.1, hstep.2.2.1, hstep.2.2.2.1, ?_⟩
      · rw [hstep.1]
      · rw [hfT, List.any_cons, ← Bool.or_assoc, ← hstep.2.2.2.2, hfT, Bool.true_or]
    · rename_i hbreak
      rw [hstep.1]
      have hih := ih (done ++ [e])
        (successWalkStep specDNSName dnsName ipTTLs now done.length
          (done.headD e) st e).2
        (fun x hx => hrest x (List.mem_cons_of_mem e hx))
        (fun x hx => by
          rcases List.mem_append.mp hx with hxd | hxe
          · exact hdone x hxd
          · rw [List.mem_singleton.mp hxe]
            exact heL)
        hstep.2.1 hstep.2.2.1 hstep.2.2.2.1
      refine ⟨?_, hih.2.1, hih.2.2.1, hih.2.2.2.1, ?_⟩
      · rw [hih.1, List.append_assoc, List.singleton_append]
      · rw [hih.2.2.2.2, hstep.2.2.2.2, List.any_cons, Bool.or_assoc]

/-- C5: when the entry for the looked-up name already carries every answer
IP within the 5-second margin and every answer IP is already present, has
zero resolution failures and a first condition with status False, no
wildcard-spec probe matches completely and (on a wildcard lookup) no other
entry matches the wildcard answer map, the success update recomputes
exactly the old resolved-name list and reports `statusUpdated = false`, so
no updateStatus RPC is issued; repeating the identical update is therefore
a no-op. -/
theorem success_update_idempotent (specDNSName dnsName : String)
    (ipTTLs : List (String × Int)) (now : Int) (rns : List ResolvedName)
    (hnoop : ∀ e ∈ rns, equalFold e.dnsName dnsName = true →
      (∀ a ∈ e.resolvedAddresses, ∀ ttl, mapFind ipTTLs a.ip = some ttl →
        isSameNextLookupTime now a.lastLookupTime a.ttlSeconds ttl = true)
      ∧ (∀ p ∈ ipTTLs, ∃ a ∈ e.resolvedAddresses, a.ip = p.1)
      ∧ e.resolutionFailures = 0
      ∧ (∃ c cs, e.conditions = c :: cs ∧ c.status = "False"))
    (h1 : ∀ e ∈ rns, isWildcard specDNSName = true → isWildcard dnsName = false →
      equalFold e.dnsName specDNSName = true →
      isMatchingResolvedName now ipTTLs e = false)
    (h3 : isWildcard dnsName = true → ∀ e ∈ rns,
      equalFold e.dnsName dnsName = false → ∀ (b : Bool), ∀ e0 ∈ rns,
      isRegularMatchingWildcardResolvedName b e0 e ipTTLs now = false)
    (h4 : ∀ e ∈ rns, equalFold e.dnsName dnsName = true →
      isWildcard specDNSName = true → isWildcard dnsName = false →
      equalFold e.dnsName specDNSName = false)
    (hfound : rns.any (fun e => equalFold e.dnsName dnsName) = true) :
    updateResolvedNamesSuccessStatus specDNSName dnsName ipTTLs now rns
      = (rns, false) := by
  have h2 : ∀ e ∈ rns, equalFold e.dnsName dnsName = true →
      addUpdateResolvedNameIPTTLs now ipTTLs e = (e, false) := by
    intro e he hf
    obtain ⟨ha, hb, hc, hd⟩ := hnoop e he hf
    exact addUpdateResolvedNameIPTTLs_noop now ipTTLs e ha hb hc hd
  have hw := successWalkGo_noop specDNSName dnsName ipTTLs now rns h2 h1 h3 h4
    rns [] initWalkFlags (fun _ hx => hx)
    (fun x hx => (List.not_mem_nil x hx).elim) rfl rfl rfl
  have hfoundT : (successWalkGo specDNSName dnsName ipTTLs now [] initWalkFlags
      rns).2.foundResolvedName = true := by
    rw [hw.2.2.2.2]
    simp only [initWalkFlags, Bool.false_or]
    exact hfound
  have hlist : (successWalkGo specDNSName dnsName ipTTLs now [] initWalkFlags
      rns).1 = rns := by
    simpa using hw.1
  by_cases hwd : isWildcard dnsName = true
  · simp only [updateResolvedNamesSuccessStatus, hwd, hw.2.1, hw.2.2.1,
      hw.2.2.2.1, hfoundT, hlist, removeResolvedNames_eq_drop]
    simp
  · have hwdF : isWildcard dnsName = false := Bool.eq_false_iff.mpr hwd
    simp only [updateResolvedNamesSuccessStatus, hwdF, hw.2.1, hw.2.2.1,
      hw.2.2.2.1, hfoundT, hlist]
    simp

theorem success_update_idempotent_witness :
    updateResolvedNamesSuccessStatus "w.b." "w.b." [("1.1.1.1", 30)] 0
        [⟨"w.b.", [⟨"1.1.1.1", 30, 0⟩], 0, [degradedCondition "False" 0 0]⟩]
      = ([⟨"w.b.", [⟨"1.1.1.1", 30, 0⟩], 0, [degradedCondition "False" 0 0]⟩],
         false) :=
  success_update_idempotent "w.b." "w.b." [("1.1.1.1", 30)] 0
    [⟨"w.b.", [⟨"1.1.1.1", 30, 0⟩], 0, [degradedCondition "False" 0 0]⟩]
    (by
      intro e he hf
      have he' : e = (⟨"w.b.", [⟨"1.1.1.1", 30, 0⟩], 0,
          [degradedCondition "False" 0 0]⟩ : ResolvedName) := by
        simpa using he
      subst he'
      refine ⟨?_, by decide, by decide,
        ⟨degradedCondition "False" 0 0, [], rfl, rfl⟩⟩
      intro a ha ttl hfind
      have ha' : a = (⟨"1.1.1.1", 30, 0⟩ : ResolvedAddress) := by simpa using ha
      subst ha'
      have h30 : some (30 : Int) = some ttl := hfind
      have httl : (30 : Int) = ttl := by injection h30
      rw [← httl]
      decide)
    (by decide) (by decide) (by decide) (by decide)
